import Mathlib

/-!
Verification of the decomposition / blind-source-separation orchestration
engine of `hyperspy/learn/mva.py` (classes `MVA` and `LearningResults`).

The Python code is shallowly embedded over an arbitrary `LinearOrderedField α`
(instantiated at `ℚ` for executable witnesses and at `ℝ` where genuine
logarithms are needed).  Conventions used throughout:

* the dataset's flattened 2-D view `data[navigation, signal]` is a
  `List (List α)` of rows (`Mat α`); the unfold/fold pair of the external
  dataset collaborator is the identity on this view and is elided;
* backend factor/loading matrices may contain `NaN` entries (the engine
  fills masked-out rows with `np.nan`), so they are `List (List (Option α))`
  (`MatO α`) with `none` playing the role of `NaN`; `-NaN = NaN` becomes
  `Option.map Neg.neg none = none`;
* `np.sqrt` and `np.log` on floats are embedded as explicit function
  parameters `sqrt log : α → α`; theorems that depend on the actual
  logarithm instantiate `α := ℝ`, `log := Real.log`, `sqrt := Real.sqrt`;
* Python exceptions are `Except PyErr`; each `PyErr` constructor records
  which `raise` site of the source it stands for;
* `0/0` followed by `np.nan_to_num` yields `0`, which agrees with the
  field convention `x / 0 = 0` used by Lean on the reachable paths
  (the engine checks strict positivity before any division);
* boolean masks are `List Bool` in the caller's convention
  (`true` = excluded); mask application assumes length-matching masks
  (NumPy raises `IndexError` on mismatched boolean indexes; that error
  path is not modelled).
-/

/-- Matrix of plain field elements: the flattened dataset view. -/
abbrev Mat (α : Type) := List (List α)

/-- Matrix whose entries may be `NaN` (`none`): factors, loadings, etc. -/
abbrev MatO (α : Type) := List (List (Option α))

/-- Exceptions raised by the engine; each constructor names the raise site
in `mva.py` (the spec's taxonomy maps `requiresOutputDimension`,
`varConflict`, `varShapeMismatch`, `invalidTarget` and `notRecognised`
to `ConfigurationError`, `domainError` to `DomainError`). -/
inductive PyErr : Type
  /-- TypeError, line 222: non-float dtype (unreachable in the model). -/
  | typeError : PyErr
  /-- AttributeError, line 234: `navigation_size < 2`. -/
  | navigationSizeError : PyErr
  /-- ValueError, line 278: algorithm requires `output_dimension`. -/
  | requiresOutputDimension : PyErr
  /-- ImportError, line 292: scikit-learn algorithm but sklearn missing. -/
  | importError : PyErr
  /-- ValueError, line 368: `normalize_poissonian_noise` with a centre. -/
  | centreConflict : PyErr
  /-- ValueError raised by a NumPy reduction over a zero-size array
  (`min` of an empty block, `argmax` of an empty distance array). -/
  | emptyReduction : PyErr
  /-- ValueError, line 1553: non-positive values under Poisson assumption. -/
  | domainError : PyErr
  /-- IndexError, lines 1562-1563: when the included sub-block has a single
  row (resp. column), `sum(1).squeeze()` (resp. `sum(0).squeeze()`) is a 0-d
  array and the slice in `np.sqrt(aG)[:, np.newaxis]` /
  `np.sqrt(bH)[np.newaxis, :]` has too many indices for it. -/
  | indexError : PyErr
  /-- ValueError, line 421: both `var_array` and `var_func` given. -/
  | varConflict : PyErr
  /-- ValueError, line 432: `var_array` shape differs from the data. -/
  | varShapeMismatch : PyErr
  /-- ValueError, line 522: algorithm not recognised. -/
  | notRecognised : PyErr
  /-- ValueError, lines 971/998: invalid `target` string. -/
  | invalidTarget : PyErr
  /-- AttributeError, line 1583: `undo_treatments` without a snapshot. -/
  | attributeError : PyErr
  /-- Any exception escaping an external factorization backend. -/
  | backendError : PyErr
  deriving DecidableEq, Repr

section Helpers

variable {α : Type} [LinearOrderedField α] {β : Type}

/-- NumPy `min` reduction over a list (`None` on a zero-size array, where
NumPy raises `ValueError`). -/
def listMin : List α → Option α
  | [] => none
  | x :: xs => some (xs.foldl min x)

/-- NumPy `max` reduction over a list, same conventions as `listMin`. -/
def listMax : List α → Option α
  | [] => none
  | x :: xs => some (xs.foldl max x)

theorem foldl_min_le_init (l : List α) (x : α) : l.foldl min x ≤ x := by
  induction l generalizing x with
  | nil => exact le_refl x
  | cons a as ih => exact (ih (min x a)).trans (min_le_left x a)

theorem foldl_min_le (l : List α) (x : α) : ∀ y ∈ l, l.foldl min x ≤ y := by
  induction l generalizing x with
  | nil => intro y hy; cases hy
  | cons a as ih =>
    intro y hy
    rcases List.mem_cons.mp hy with rfl | hmem
    · exact (foldl_min_le_init as (min x y)).trans (min_le_right x y)
    · exact ih (min x a) y hmem

theorem foldl_min_mem (l : List α) (x : α) :
    l.foldl min x = x ∨ l.foldl min x ∈ l := by
  induction l generalizing x with
  | nil => exact Or.inl rfl
  | cons a as ih =>
    rw [List.foldl_cons]
    rcases ih (min x a) with h | h
    · rcases min_cases x a with ⟨hmin, _⟩ | ⟨hmin, _⟩
      · exact Or.inl (h.trans hmin)
      · refine Or.inr ?_
        rw [h, hmin]
        exact List.mem_cons_self a as
    · exact Or.inr (List.mem_cons_of_mem a h)

theorem listMin_le {l : List α} {m : α} (h : listMin l = some m) :
    ∀ y ∈ l, m ≤ y := by
  cases l with
  | nil => simp [listMin] at h
  | cons a as =>
    simp only [listMin, Option.some.injEq] at h
    intro y hy
    rcases List.mem_cons.mp hy with rfl | hmem
    · exact h ▸ foldl_min_le_init as y
    · exact h ▸ foldl_min_le as a y hmem

theorem listMin_mem {l : List α} {m : α} (h : listMin l = some m) : m ∈ l := by
  cases l with
  | nil => simp [listMin] at h
  | cons a as =>
    simp only [listMin, Option.some.injEq] at h
    rw [← h]
    rcases foldl_min_mem as a with h' | h'
    · rw [h']
      exact List.mem_cons_self a as
    · exact List.mem_cons_of_mem a h'

end Helpers

section MaskAlgebra

variable {α : Type} [LinearOrderedField α] {β : Type}

/-- Application of an *inclusion* selector along one axis: `none` stands for
`slice(None)` (everything included), `some m` keeps exactly the entries whose
flag is `true`.  Masks are assumed to have the axis's length. -/
def applyMask1 (mask : Option (List Bool)) (l : List β) : List β :=
  match mask with
  | none => l
  | some m => (l.zip m).filterMap (fun p => if p.2 then some p.1 else none)

/-- The included sub-block `dc[:, signal_mask][navigation_mask, :]` of a data
matrix, given *inclusion* selectors for both axes. -/
def subBlock (dc : Mat α) (navInc sigInc : Option (List Bool)) : Mat α :=
  applyMask1 navInc (dc.map (applyMask1 sigInc))

/-- Number of columns of a matrix (NumPy `shape[1]` of a well-formed array). -/
def shapeCols (m : List (List β)) : ℕ := (m.headD []).length

end MaskAlgebra

/-- The string identifiers of `decomposition_algorithms` handled through
scikit-learn (line 284); `sklearn_fastica` is *not* among them. -/
def sklearnNames : List String := ["sklearn_pca", "nmf", "sparse_pca", "mini_batch_sparse_pca"]

/-- Algorithms that require `output_dimension` (lines 271-276). -/
def requiresDimNames : List String := ["mlpca", "rpca", "orpca", "ornmf"]

/-- The `algorithm` argument of `decomposition`: either a string identifier or
a duck-typed estimator object, described by which of the methods
`fit_transform`, `fit`, `transform` it exposes. -/
inductive AlgoId : Type
  | name (s : String) : AlgoId
  | estimator (hasFitTransform hasFit hasTransform : Bool) : AlgoId
  deriving DecidableEq, Repr

/-- The deprecated-alias table of lines 239-268 (the `svd_solver`
side effect of the `fast_*` aliases is irrelevant to the claims and elided). -/
def resolveAlgorithm : AlgoId → AlgoId
  | .name "fast_svd" => .name "svd"
  | .name "fast_mlpca" => .name "mlpca"
  | .name "RPCA_GoDec" => .name "rpca"
  | .name "ORPCA" => .name "orpca"
  | .name "ORNMF" => .name "ornmf"
  | a => a

/-- Is `is_sklearn_like` set (lines 283-311)?  For a string identifier this
requires membership in `algorithms_sklearn` (the sklearn-installed check has
already raised otherwise); for an estimator it is the capability test
`fit_transform` or `fit` and `transform`. -/
def is_sklearn_like : AlgoId → Bool
  | .name a => sklearnNames.contains a
  | .estimator ftf fit tr => ftf || (fit && tr)

/-- The attributes set by `LearningResults.__init__` (lines 1670-1692), every
one of them `None`.  `explained_variance_frac` models the source attribute
`explained_variance_ratio` (renamed here for tooling reasons only). -/
structure LearningResults (α : Type) : Type where
  factors : Option (MatO α)
  loadings : Option (MatO α)
  explained_variance : Option (List α)
  explained_variance_frac : Option (List α)
  number_significant_components : Option ℕ
  decomposition_algorithm : Option AlgoId
  poissonian_noise_normalized : Option Bool
  output_dimension : Option ℕ
  mean : Option (List α)
  centre : Option String
  bss_algorithm : Option AlgoId
  unmixing_matrix : Option (MatO α)
  bss_factors : Option (MatO α)
  bss_loadings : Option (MatO α)
  unfolded : Option Bool
  original_shape : Option (List ℕ)
  navigation_mask : Option (List Bool)
  signal_mask : Option (List Bool)
  deriving DecidableEq, Repr

/-- A freshly constructed `LearningResults()`: every attribute is `None`. -/
def LearningResults.init {α : Type} : LearningResults α :=
  ⟨none, none, none, none, none, none, none, none, none, none, none, none,
   none, none, none, none, none, none⟩

/-- The observable state of a signal taking part in a decomposition: the
flattened data view plus the attributes `learning_results`,
`_data_before_treatments` (the `copy=True` snapshot) and the Poisson scaling
vectors `_root_aG` / `_root_bH`. -/
structure PySignal (α : Type) : Type where
  data : Mat α
  learning_results : LearningResults α
  data_before_treatments : Option (Mat α)
  root_aG : Option (List α)
  root_bH : Option (List α)
  deriving DecidableEq, Repr

section Normalize

variable {α : Type} [LinearOrderedField α]

/-- Divide the included rows of `dc` elementwise by the outer product
`root_aG ⊗ root_bH` (line 1568); `navInc` selects the rows, each included row
is paired with the next entry of `root_aG`, and within a row column `j` is
divided by `root_bH[j]`.  Excluded rows are untouched. -/
def divideIncludedRows : Mat α → List Bool → List α → List α → Mat α
  | [], _, _, _ => []
  | r :: rs, true :: bs, c :: cs, rbH =>
      r.zipWith (fun x d => x / (c * d)) rbH :: divideIncludedRows rs bs cs rbH
  | r :: rs, true :: bs, [], rbH => r :: divideIncludedRows rs bs [] rbH
  | r :: rs, false :: bs, cs, rbH => r :: divideIncludedRows rs bs cs rbH
  | r :: rs, [], cs, rbH => r :: divideIncludedRows rs [] cs rbH

/-- Column sums of a matrix (`sum(0)` of the included sub-block). -/
def columnSums : Mat α → List α
  | [] => []
  | [r] => r
  | r :: rs => r.zipWith (· + ·) (columnSums rs)

/-- MVA.normalize_poissonian_noise (lines 1518-1571).  `np.sqrt` is the
parameter `sqrt`.  Masks arrive in the caller's exclusion convention and are
negated once into inclusion selectors (lines 1542-1549).  The final in-place
update `dc[:, signal_mask][navigation_mask, :] /= ...` follows NumPy
semantics: when `signal_mask` is a boolean array, `dc[:, signal_mask]` is an
advanced-indexing *copy*, so the division lands in a temporary and the live
data is left unchanged; only when `signal_mask` is `slice(None)` (mask absent)
does the assignment write through the view into `dc`.  A single included row
(resp. column) makes `sum(1).squeeze()` (resp. `sum(0).squeeze()`) a 0-d
array, so building the root vectors at lines 1562-1563 raises `IndexError`
before anything is stored; the `with self.unfolded()` reshaping is the
identity on the flattened view and elided. -/
def normalize_poissonian_noise (sqrt : α → α) (navigation_mask signal_mask : Option (List Bool))
    (s : PySignal α) : Except PyErr (PySignal α) :=
  let dc := s.data
  let navInc := navigation_mask.map (List.map not)
  let sigInc := signal_mask.map (List.map not)
  let sub := subBlock dc navInc sigInc
  -- line 1552: `dc[:, signal_mask][navigation_mask, :].min() <= 0.0`
  match listMin sub.flatten with
  | none => .error .emptyReduction
  | some mn =>
    if mn ≤ 0 then .error .domainError
    else
      -- lines 1559-1560
      let aG := sub.map List.sum
      let bH := columnSums sub
      -- lines 1562-1563: `aG` (resp. `bH`) of length 1 squeezes to a 0-d
      -- array whose slicing raises IndexError (line 1562 fires first)
      if aG.length = 1 ∨ bH.length = 1 then .error .indexError
      else
        let root_aG := aG.map sqrt
        let root_bH := bH.map sqrt
        -- lines 1567-1571 (`nan_to_num` of `0/0` agrees with `x / 0 = 0`;
        -- the positivity check above keeps the divisors away from `0` for
        -- the genuine square root)
        let data' :=
          match signal_mask with
          | some _ => dc  -- silent no-op: the division hit a NumPy copy
          | none =>
              divideIncludedRows dc (navInc.getD (List.replicate dc.length true)) root_aG root_bH
        .ok { s with data := data', root_aG := some root_aG, root_bH := some root_bH }

/-- MVA.undo_treatments (lines 1573-1586): restore the `copy=True` snapshot
into the live data and delete it. -/
def undo_treatments (s : PySignal α) : Except PyErr (PySignal α) :=
  match s.data_before_treatments with
  | some d => .ok { s with data := d, data_before_treatments := none }
  | none => .error .attributeError

end Normalize

section Argmax

variable {α : Type} [LinearOrderedField α]

/-- Scan underlying `np.argmax`: `xs` is the unseen suffix starting at index
`i`, `bi`/`bv` are the index and value of the running maximum (kept only on a
*strict* improvement, so the first occurrence of the maximum wins). -/
def argmaxAux : List α → ℕ → ℕ → α → ℕ
  | [], _, bi, _ => bi
  | x :: xs, i, bi, bv =>
      if bv < x then argmaxAux xs (i + 1) i x else argmaxAux xs (i + 1) bi bv

/-- NumPy `argmax` over a 1-D array: index of the first occurrence of the
maximum; `none` models the `ValueError` raised on a zero-size array. -/
def argmaxList : List α → Option ℕ
  | [] => none
  | x :: xs => some (argmaxAux xs 1 0 x)

theorem argmaxAux_spec (f : ℕ → α) :
    ∀ (xs : List α) (i bi : ℕ) (bv : α),
      bi < i → bv = f bi →
      (∀ j, j < xs.length → xs.getD j bv = f (i + j)) →
      (∀ j, j < i → f j ≤ f bi) →
      (∀ j, j < bi → f j < f bi) →
      argmaxAux xs i bi bv < i + xs.length ∧
        (∀ j, j < i + xs.length → f j ≤ f (argmaxAux xs i bi bv)) ∧
        (∀ j, j < argmaxAux xs i bi bv → f j < f (argmaxAux xs i bi bv)) := by
  intro xs
  induction xs with
  | nil =>
    intro i bi bv hbi hbv _ hle hlt
    refine ⟨by simpa [argmaxAux] using hbi, ?_, ?_⟩
    · intro j hj
      simp only [List.length_nil, Nat.add_zero] at hj
      simpa [argmaxAux, ← hbv] using hbv ▸ hle j hj
    · intro j hj
      simp only [argmaxAux] at hj ⊢
      exact hlt j hj
  | cons x xs ih =>
    intro i bi bv hbi hbv hxs hle hlt
    have hx : x = f i := by simpa using hxs 0 (by simp)
    have hxs' : ∀ j, j < xs.length → xs.getD j bv = f (i + 1 + j) := by
      intro j hj
      have := hxs (j + 1) (by simpa using Nat.succ_lt_succ hj)
      simpa [Nat.add_assoc, Nat.add_comm 1 j] using this
    by_cases hcmp : bv < x
    · -- strict improvement: the running maximum moves to index i
      have hle' : ∀ j, j < i + 1 → f j ≤ f i := by
        intro j hj
        rcases Nat.lt_succ_iff_lt_or_eq.mp hj with hj' | rfl
        · exact (hle j hj').trans (le_of_lt (hbv ▸ hx ▸ hcmp))
        · exact le_refl _
      have hlt' : ∀ j, j < i → f j < f i := by
        intro j hj
        exact lt_of_le_of_lt (hle j hj) (hbv ▸ hx ▸ hcmp)
      have hxs'' : ∀ j, j < xs.length → xs.getD j x = f (i + 1 + j) := by
        intro j hj
        rw [← hxs' j hj]
        rcases Nat.lt_or_ge j xs.length with hj' | hj'
        · rw [List.getD_eq_getElem xs x hj', List.getD_eq_getElem xs bv hj']
        · omega
      have := ih (i + 1) i x (Nat.lt_succ_self i) hx hxs'' hle' hlt'
      simpa [argmaxAux, hcmp, List.length_cons, Nat.add_comm, Nat.add_assoc,
             Nat.add_left_comm] using this
    · -- no improvement: keep (bi, bv)
      have hle' : ∀ j, j < i + 1 → f j ≤ f bi := by
        intro j hj
        rcases Nat.lt_succ_iff_lt_or_eq.mp hj with hj' | rfl
        · exact hle j hj'
        · exact hbv ▸ hx ▸ le_of_not_lt hcmp
      have hxs'' : ∀ j, j < xs.length → xs.getD j bv = f (i + 1 + j) := hxs'
      have := ih (i + 1) bi bv (hbi.trans (Nat.lt_succ_self i)) hbv hxs'' hle' hlt
      simpa [argmaxAux, hcmp, List.length_cons, Nat.add_comm, Nat.add_assoc,
             Nat.add_left_comm] using this

/-- Characterization of `argmaxList`: it returns an in-range index whose value
is a maximum of the list, and every strictly earlier value is strictly
smaller (first-occurrence tie-breaking). -/
theorem argmaxList_spec (l : List α) (k : ℕ) (d : α) (h : argmaxList l = some k) :
    k < l.length ∧ (∀ j, j < l.length → l.getD j d ≤ l.getD k d) ∧
      (∀ j, j < k → l.getD j d < l.getD k d) := by
  cases l with
  | nil => simp [argmaxList] at h
  | cons x xs =>
    simp only [argmaxList, Option.some.injEq] at h
    have spec := argmaxAux_spec (fun j => (x :: xs).getD j d) xs 1 0 x
      (Nat.zero_lt_one) (by simp) ?hxs (by intro j hj; interval_cases j; simp) (by omega)
    case hxs =>
      intro j hj
      show xs.getD j x = (x :: xs).getD (1 + j) d
      rw [Nat.add_comm, List.getD_cons_succ, List.getD_eq_getElem xs x hj,
          List.getD_eq_getElem xs d hj]
    rw [h] at spec
    obtain ⟨h1, h2, h3⟩ := spec
    refine ⟨by simp only [List.length_cons]; omega, ?_, by simpa using h3⟩
    intro j hj
    simpa using h2 j (by simp only [List.length_cons] at hj; omega)

end Argmax

section Elbow

variable {α : Type} [LinearOrderedField α]

/-- The distance computed for index `i` by `estimate_elbow_position`
(lines 1641-1658): clamp `max_points` to `len(curve) - 1`, clip the curve
from below at `1e-30` (the exact rational `1 / 10 ^ 30`), take logs, and
measure `|Δx·(y1 - yi) - Δxi·(y2 - y1)| / sqrt(Δx² + Δy²)` against the line
through the first and the `max_points`-th log-point.  `np.log` and the
`np.sqrt` of the denominator are the parameters `log` and `sqrt`;
`np.nan_to_num` on the distances is the identity here, since in an ordered
field there is no `NaN` and a zero denominator already yields `0`. -/
def elbowDistance (log sqrt : α → α) (curve_values : List α) (max_points : ℕ)
    (i : ℕ) : α :=
  let max_points := min max_points (curve_values.length - 1)
  let curve_values_adj := curve_values.map (fun v => max (1 / 10 ^ 30 : α) v)
  let x1 : α := 0
  let x2 : α := max_points
  let y1 := log (curve_values_adj.getD 0 0)
  let y2 := log (curve_values_adj.getD max_points 0)
  |(x2 - x1) * (y1 - log (curve_values_adj.getD i 0)) - (x1 - (i : α)) * (y2 - y1)| /
    sqrt ((x2 - x1) ^ 2 + (y2 - y1) ^ 2)

/-- MVA.estimate_elbow_position (lines 1588-1664) on an explicitly given
curve: the `np.argmax` (first occurrence of the maximum) of the distances of
the indices `0 ≤ i < max_points` (after clamping); `none` models the
`ValueError` NumPy raises when the distance array is empty
(`max_points = 0`). -/
def estimate_elbow_position (log sqrt : α → α) (curve_values : List α)
    (max_points : ℕ) : Option ℕ :=
  argmaxList ((List.range (min max_points (curve_values.length - 1))).map
    (elbowDistance log sqrt curve_values max_points))

end Elbow

section Decomposition

variable {α : Type} [LinearOrderedField α]

/-- The `var_func` argument of `decomposition`: a callable applied to the
data, or polynomial coefficients evaluated over the data with `np.polyval`
(lines 435-444; the invalid-type `ValueError` of line 441 is out of the
model's input space). -/
inductive VarFunc (α : Type) : Type
  | callable (f : Mat α → Mat α) : VarFunc α
  | poly (coeffs : List α) : VarFunc α

/-- Horner evaluation, `np.polyval(coeffs, x)`. -/
def polyval (coeffs : List α) (x : α) : α :=
  coeffs.foldl (fun acc c => acc * x + c) 0

/-- Turn `var_func` into a variance array over `data_` (lines 436-439). -/
def evalVarFunc : VarFunc α → Mat α → Mat α
  | .callable f, d => f d
  | .poly cs, d => d.map (List.map (polyval cs))

/-- NumPy shape of a (possibly ragged) list-of-rows matrix. -/
def matShape (m : Mat α) : ℕ × List ℕ := (m.length, m.map List.length)

/-- Broadcast multiplication `U * S` of a matrix by a length-`k` vector:
column `j` of `U` is scaled by `S[j]` (lines 450/457/470). -/
def mulColsO (U : MatO α) (S : List α) : MatO α :=
  U.map (fun row => row.zipWith (fun o c => o.map (· * c)) S)

/-- Transpose of a well-formed `MatO` matrix (`R.T`, `H.T`, `components_.T`). -/
def transposeO (m : MatO α) : MatO α :=
  (List.range (shapeCols m)).map (fun j => m.map (fun r => r.getD j none))

/-- Broadcast multiplication of a matrix by a per-row scale vector: row `i`
is multiplied by `v[i]` (`target.factors[:] *= self._root_bH.T` and
`target.loadings[:] *= self._root_aG`, lines 588-589). -/
def scaleRows (m : MatO α) (v : List α) : MatO α :=
  m.zipWith (fun row c => row.map (Option.map (· * c))) v

/-- Re-expansion of an axis-restricted result to full extent (lines 598-601
and 609-612): allocate `included.length` rows of width `k`, copy the reduced
rows into the `true` positions and fill the `false` positions with `np.nan`. -/
def expandRows : List Bool → MatO α → ℕ → MatO α
  | [], _, _ => []
  | true :: bs, r :: rs, k => r :: expandRows bs rs k
  | true :: bs, [], k => List.replicate k none :: expandRows bs [] k
  | false :: bs, rs, k => List.replicate k none :: expandRows bs rs k

/-- LearningResults.crop_decomposition_dimension (lines 1822-1845): truncate
`loadings`, `explained_variance` (when present) and `factors` to the first
`n` components.  The lazy `compute` branch is elided. -/
def crop_decomposition_dimension (n : ℕ) (lr : LearningResults α) : LearningResults α :=
  { lr with
    loadings := lr.loadings.map (List.map (List.take n))
    explained_variance := lr.explained_variance.map (List.take n)
    factors := lr.factors.map (List.map (List.take n)) }

/-- What one factorization branch of `decomposition` produces before the
results are stored: factors, loadings, optional explained variance, optional
mean, and the (possibly updated) `centre` (an estimator exposing `mean_`
forces `centre = "samples"`, lines 513-515). -/
structure DispatchOut (α : Type) : Type where
  factors : MatO α
  loadings : MatO α
  explained_variance : Option (List α)
  mean : Option (List α)
  centre : Option String

/-- The external factorization collaborators of §4.1 of the spec, as
black-box functions with the call contracts of lines 409-519.  Each returns
`Except PyErr` so that a mid-fit backend failure can be modelled.  Output
shape conventions follow the spec's `FitResult` contract: for `mlpca` /
`rpca_godec`, `U : [nav × k]`, `S : [k]`, `V : [signal × k]`; `orpca` returns
`(L : [nav × k], R : [k × signal])`; `ornmf` returns
`(W : [nav × k], H : [k × signal])`.  The `return_info` variants (`store_error`,
`(X, E)` pairs, returning the estimator) only affect the function's return
value, not the stored state, and are elided. -/
structure Backends (α : Type) : Type where
  sklearn_installed : Bool
  svd_pca : Mat α → Except PyErr (MatO α × MatO α × Option (List α) × Option (List α))
  mlpca : Mat α → Mat α → ℕ → Except PyErr (MatO α × List α × MatO α)
  rpca_godec : Mat α → ℕ → Except PyErr (MatO α × List α × MatO α)
  orpca : Mat α → ℕ → Except PyErr (MatO α × MatO α)
  ornmf : Mat α → ℕ → Except PyErr (MatO α × MatO α)
  estimator : Mat α → Except PyErr (MatO α × MatO α × Option (List α) × Option (List α))

/-- Arguments of `decomposition` taking part in the model.  `reproject`,
`return_info`, `print_info`, `svd_solver`, `auto_transpose` and the deprecated
`polyfit` do not influence any claim and are elided (`reproject = None`
throughout, so the masked re-expansion of lines 597/608 always runs). -/
structure DecompArgs (α : Type) : Type where
  normalize_poissonian_noise : Bool
  algorithm : AlgoId
  output_dimension : Option ℕ
  centre : Option String
  navigation_mask : Option (List Bool)
  signal_mask : Option (List Bool)
  var_array : Option (Mat α)
  var_func : Option (VarFunc α)
  copy : Bool

/-- Does `algorithm` require `output_dimension` (lines 271-280)? -/
def requiresDim : AlgoId → Bool
  | .name a => requiresDimNames.contains a
  | .estimator _ _ _ => false

/-- Does `algorithm` name one of the scikit-learn identifiers (line 290)? -/
def isSklearnName : AlgoId → Bool
  | .name a => sklearnNames.contains a
  | .estimator _ _ _ => false

/-- The validation performed before the `try` block of `decomposition`
(lines 220-300, continued): dtype (always float here), `navigation_size < 2`,
the `output_dimension` requirement, and the scikit-learn availability check.
`algorithm` is already alias-resolved. -/
def decomposition_precheck (sklearn_installed : Bool) (algorithm : AlgoId)
    (output_dimension : Option ℕ) (s : PySignal α) : Option PyErr :=
  if s.data.length < 2 then some .navigationSizeError
  else if requiresDim algorithm ∧ output_dimension = none then
    some .requiresOutputDimension
  else if isSklearnName algorithm ∧ ¬sklearn_installed then
    some .importError
  else none

/-- The algorithm dispatch of lines 409-522, producing factors / loadings /
explained variance from the masked matrix `data_`.  The `mlpca` variance
model selection is lines 419-444; `explained_variance = S ** 2 / len(factors)`
(lines 452/459) divides by the *row count of `factors` (= `V`)*. -/
def dispatch (B : Backends α) (args : DecompArgs α) (algorithm : AlgoId)
    (skl : Bool) (data_ : Mat α) : Except PyErr (DispatchOut α) :=
  if algorithm = .name "svd" then
    match B.svd_pca data_ with
    | .error e => .error e
    | .ok (factors, loadings, ev, mean) => .ok ⟨factors, loadings, ev, mean, args.centre⟩
  else if algorithm = .name "mlpca" then
    if args.var_array.isSome ∧ args.var_func.isSome then .error .varConflict
    else
      match (match args.var_array, args.var_func with
             | none, none => .ok data_  -- Poisson default: `var_array = data_`
             | some va, _ =>
                 if matShape va = matShape data_ then .ok va else .error .varShapeMismatch
             | none, some vf => .ok (evalVarFunc vf data_) :
               Except PyErr (Mat α)) with
      | .error e => .error e
      | .ok var_array =>
        match B.mlpca data_ var_array (args.output_dimension.getD 0) with
        | .error e => .error e
        | .ok (U, S, V) =>
            .ok ⟨V, mulColsO U S, some (S.map (fun x => x ^ 2 / (V.length : α))),
                 none, args.centre⟩
  else if algorithm = .name "rpca" then
    match B.rpca_godec data_ (args.output_dimension.getD 0) with
    | .error e => .error e
    | .ok (U, S, V) =>
        .ok ⟨V, mulColsO U S, some (S.map (fun x => x ^ 2 / (V.length : α))),
             none, args.centre⟩
  else if algorithm = .name "orpca" then
    match B.orpca data_ (args.output_dimension.getD 0) with
    | .error e => .error e
    | .ok (L, R) => .ok ⟨transposeO R, L, none, none, args.centre⟩
  else if algorithm = .name "ornmf" then
    match B.ornmf data_ (args.output_dimension.getD 0) with
    | .error e => .error e
    | .ok (W, H) => .ok ⟨transposeO H, W, none, none, args.centre⟩
  else if skl then
    match B.estimator data_ with
    | .error e => .error e
    | .ok (components, loadings, ev, mean) =>
        .ok ⟨transposeO components, loadings, ev, mean,
             if mean.isSome then some "samples" else args.centre⟩
  else .error .notRecognised

/-- Lines 524-531: derive `explained_variance_ratio` and, through the elbow
estimator, `number_significant_components` (`estimate_elbow_position` is
called with its default `max_points = 20`; the exception it raises on an
empty distance array propagates). -/
def evAndElbow (log sqrt : α → α) :
    Option (List α) → Except PyErr (Option (List α) × Option ℕ)
  | none => .ok (none, none)
  | some v =>
    let vr := v.map (· / v.sum)
    match estimate_elbow_position log sqrt vr 20 with
    | none => .error .emptyReduction
    | some e => .ok (some vr, some (e + 1))

/-- Lines 533-612: build the target `LearningResults`.  The record literal
covers lines 534-556 (field stores, the BSS nulling of lines 549-552 and
`original_shape`); then the conditional crop (546-547), the Poisson rescale
(587-589) and the mask persistence / NaN re-expansion (591-612, with
`reproject = None`). -/
def decomposition_store (args : DecompArgs α) (algorithm : AlgoId) (npn : Bool)
    (wasUnfolded : Bool) (origShape : List ℕ) (navInc sigInc : Option (List Bool))
    (root_aG root_bH : List α) (out : DispatchOut α)
    (vr : Option (List α)) (nsc : Option ℕ) : LearningResults α :=
  let target : LearningResults α :=
    { factors := some out.factors
      loadings := some out.loadings
      explained_variance := out.explained_variance
      explained_variance_frac := vr
      number_significant_components := nsc
      decomposition_algorithm := some algorithm
      poissonian_noise_normalized := some npn
      output_dimension := args.output_dimension
      mean := out.mean
      centre := out.centre
      bss_algorithm := none       -- line 552
      unmixing_matrix := none     -- line 551
      bss_factors := none         -- never assigned: `None` from __init__
      bss_loadings := none        -- never assigned: `None` from __init__
      unfolded := some wasUnfolded
      original_shape := if wasUnfolded then some origShape else none
      navigation_mask := none
      signal_mask := none }
  -- line 546: `if output_dimension and factors.shape[1] != output_dimension`
  let target :=
    match args.output_dimension with
    | some n =>
        if n ≠ 0 ∧ shapeCols out.factors ≠ n then crop_decomposition_dimension n target
        else target
    | none => target
  -- lines 587-589
  let target :=
    if npn then
      { target with
        factors := target.factors.map (fun f => scaleRows f root_bH)
        loadings := target.loadings.map (fun l => scaleRows l root_aG) }
    else target
  -- lines 592-601
  let target :=
    match sigInc with
    | some m =>
        { target with
          signal_mask := some (m.map not)
          factors := target.factors.map (fun f => expandRows m f (shapeCols f)) }
    | none => target
  -- lines 603-612
  let target :=
    match navInc with
    | some m =>
        { target with
          navigation_mask := some (m.map not)
          loadings := target.loadings.map (fun l => expandRows m l (shapeCols l)) }
    | none => target
  target

/-- The `try` block of `decomposition` (lines 354-612).  Returns either the
fully built target or the escaping exception, together with the signal state
as mutated so far (every raise site of the block precedes the first
assignment into the target, line 534).  The axis-order transpose of lines
380-383 is the identity on the flattened view and elided. -/
def decomposition_try (B : Backends α) (log sqrt : α → α) (args : DecompArgs α)
    (algorithm : AlgoId) (npn : Bool) (wasUnfolded : Bool) (origShape : List ℕ)
    (s : PySignal α) : Except PyErr (LearningResults α) × PySignal α :=
  -- lines 366-375
  if npn ∧ args.centre.isSome then (.error .centreConflict, s)
  else
    match (if npn then
             normalize_poissonian_noise sqrt args.navigation_mask args.signal_mask s
           else .ok s) with
    | .error e => (.error e, s)
    | .ok s1 =>
      -- lines 386-400: negate the masks into inclusion selectors and slice
      let navInc := args.navigation_mask.map (List.map not)
      let sigInc := args.signal_mask.map (List.map not)
      let data_ := subBlock s1.data navInc sigInc
      match dispatch B args algorithm (is_sklearn_like algorithm) data_ with
      | .error e => (.error e, s1)
      | .ok out =>
        match evAndElbow log sqrt out.explained_variance with
        | .error e => (.error e, s1)
        | .ok (vr, nsc) =>
            (.ok (decomposition_store args algorithm npn wasUnfolded origShape
                    navInc sigInc (s1.root_aG.getD []) (s1.root_bH.getD []) out vr nsc),
             s1)

/-- Lines 314-321: `mlpca` forces `normalize_poissonian_noise = False` (with
a warning). -/
def effective_npn (algorithm : AlgoId) (npn : Bool) : Bool :=
  if algorithm = .name "mlpca" ∧ npn then false else npn

/-- MVA.decomposition (lines 97-628).  `wasUnfolded` is the value returned by
the external `self.unfold()` and `origShape` the recorded pre-unfold shape;
the flattened data view itself is unaffected by unfold/fold.  The `finally`
block (lines 614-622) runs on *every* exit from the `try`: it folds back,
merges `target.__dict__` into `learning_results.__dict__` — since the fresh
target's `__init__` sets every modelled field, this replaces all of them —
and, under `copy=True`, restores the data snapshot via `undo_treatments`. -/
def decomposition (B : Backends α) (log sqrt : α → α) (args : DecompArgs α)
    (wasUnfolded : Bool) (origShape : List ℕ) (s : PySignal α) :
    Except PyErr Unit × PySignal α :=
  let algorithm := resolveAlgorithm args.algorithm
  match decomposition_precheck B.sklearn_installed algorithm args.output_dimension s with
  | some e => (.error e, s)
  | none =>
    let npn := effective_npn algorithm args.normalize_poissonian_noise
    -- lines 345-346: `self._data_before_treatments = self.data.copy()`
    let s1 := if args.copy then { s with data_before_treatments := some s.data } else s
    let r := decomposition_try B log sqrt args algorithm npn wasUnfolded origShape s1
    -- finally: lines 614-622
    let target :=
      match r.1 with
      | .ok t => t
      | .error _ => LearningResults.init  -- target untouched since line 349
    let s3 := { r.2 with learning_results := target }
    let s4 :=
      if args.copy then
        match undo_treatments s3 with
        | .ok s' => s'
        | .error _ => s3  -- unreachable: `copy=True` installed the snapshot
      else s3
    (match r.1 with
     | .ok _ => .ok ()
     | .error e => .error e, s4)

end Decomposition

section NormalizeClaims

variable {α : Type} [LinearOrderedField α]

theorem listMin_eq_none {l : List α} (h : listMin l = none) : l = [] := by
  cases l with
  | nil => rfl
  | cons a as => simp [listMin] at h

/-- C3: `normalize_poissonian_noise` raises the `DomainError`-class
`ValueError` exactly when the included sub-block has a non-positive entry: if
some included value is `≤ 0` it fails with that error before any rescaling
(the error is returned in place of a new state, so the data is untouched),
and if every included value is strictly positive this error is never
raised. -/
theorem C3_normalize_poissonian_noise_positivity (sqrt : ℚ → ℚ)
    (navigation_mask signal_mask : Option (List Bool)) (s : PySignal ℚ) :
    ((∃ x ∈ (subBlock s.data (navigation_mask.map (List.map not))
          (signal_mask.map (List.map not))).flatten, x ≤ 0) →
        normalize_poissonian_noise sqrt navigation_mask signal_mask s
          = .error .domainError) ∧
    ((∀ x ∈ (subBlock s.data (navigation_mask.map (List.map not))
          (signal_mask.map (List.map not))).flatten, 0 < x) →
        normalize_poissonian_noise sqrt navigation_mask signal_mask s
          ≠ .error .domainError) := by
  set sub := subBlock s.data (navigation_mask.map (List.map not))
    (signal_mask.map (List.map not)) with hsub
  constructor
  · rintro ⟨x, hx, hx0⟩
    cases hmin : listMin sub.flatten with
    | none => rw [listMin_eq_none hmin] at hx; cases hx
    | some mn =>
      have hmn : mn ≤ 0 := (listMin_le hmin x hx).trans hx0
      simp only [normalize_poissonian_noise, ← hsub, hmin, hmn, if_pos]
  · intro hpos
    cases hmin : listMin sub.flatten with
    | none =>
      simp only [normalize_poissonian_noise, ← hsub, hmin]
      intro h
      cases h
    | some mn =>
      have hmn : ¬mn ≤ 0 := not_le.mpr (hpos mn (listMin_mem hmin))
      simp only [normalize_poissonian_noise, ← hsub, hmin, hmn, if_false]
      split
      · intro h
        injection h with h'
        cases h'
      · intro h
        cases h

/-- Witness for C3 at concrete inputs: the full `2 × 2` block `[[0,1],[1,1]]`
contains a zero and triggers the error; `[[1,2],[3,4]]` is strictly positive
and does not. -/
theorem C3_witness :
    normalize_poissonian_noise (α := ℚ) id none none
        ⟨[[0, 1], [1, 1]], LearningResults.init, none, none, none⟩
      = .error .domainError ∧
    normalize_poissonian_noise (α := ℚ) id none none
        ⟨[[1, 2], [3, 4]], LearningResults.init, none, none, none⟩
      ≠ .error .domainError := by
  constructor
  · exact (C3_normalize_poissonian_noise_positivity id none none _).1 (by decide)
  · exact (C3_normalize_poissonian_noise_positivity id none none _).2 (by decide)

/-- C2 (code bug): on the data `[[9,7,2],[16,7,2]]` with signal exclusion
mask `[false, false, true]` (column 2 excluded; the included `2 × 2` block
keeps two rows and two columns, so the 0-d-squeeze `IndexError` of lines
1562-1563 is not in play), the claim requires the included block to be
divided in place by the outer product of the root sums, yet
`normalize_poissonian_noise` succeeds while leaving the live data bit-for-bit
unchanged: `dc[:, signal_mask]` with a boolean mask is an advanced-indexing
copy, so the `/=` of line 1568 mutates a discarded temporary.  The second
conjunct records that the claimed transformation of the entry at `(0,0)`
(row sum `16`, column sum `25`, here with the model's `sqrt := id`) is not
the identity, so the two behaviours genuinely differ. -/
theorem C2_normalize_signal_mask_silent_no_op :
    (normalize_poissonian_noise (α := ℚ) id none (some [false, false, true])
        ⟨[[9, 7, 2], [16, 7, 2]], LearningResults.init, none, none, none⟩).map
      (fun s' => s'.data) = .ok [[9, 7, 2], [16, 7, 2]] ∧
    (9 : ℚ) / (id (16 : ℚ) * id (25 : ℚ)) ≠ 9 := by
  constructor
  · rfl
  · norm_num

end NormalizeClaims

section DecompositionLemmas

variable {α : Type} [LinearOrderedField α]

theorem normalize_poissonian_noise_ok_state {sqrt : α → α}
    {nm sm : Option (List Bool)} {s s1 : PySignal α}
    (h : normalize_poissonian_noise sqrt nm sm s = .ok s1) :
    s1.data_before_treatments = s.data_before_treatments ∧
      s1.learning_results = s.learning_results := by
  simp only [normalize_poissonian_noise] at h
  split at h
  · cases h
  · split at h
    · cases h
    · split at h
      · cases h
      · injection h with h'
        subst h'
        exact ⟨rfl, rfl⟩

/-- The state carried out of the `try` block never touches the snapshot or
the (pre-`finally`) `learning_results`. -/
theorem decomposition_try_state (B : Backends α) (log sqrt : α → α)
    (args : DecompArgs α) (algorithm : AlgoId) (npn : Bool) (wu : Bool)
    (os : List ℕ) (s : PySignal α) :
    (decomposition_try B log sqrt args algorithm npn wu os s).2.data_before_treatments
        = s.data_before_treatments ∧
      (decomposition_try B log sqrt args algorithm npn wu os s).2.learning_results
        = s.learning_results := by
  simp only [decomposition_try]
  split
  · exact ⟨rfl, rfl⟩
  · split
    · exact ⟨rfl, rfl⟩
    · rename_i s1 hnorm
      have hs1 : s1.data_before_treatments = s.data_before_treatments ∧
          s1.learning_results = s.learning_results := by
        split at hnorm
        · exact normalize_poissonian_noise_ok_state hnorm
        · injection hnorm with h'
          subst h'
          exact ⟨rfl, rfl⟩
      split
      · exact hs1
      · split
        · exact hs1
        · exact hs1

omit [LinearOrderedField α] in
/-- The `finally`-block restoration branch leaves `learning_results` alone. -/
theorem undo_branch_lr (s3 : PySignal α) :
    (match undo_treatments s3 with
     | .ok s' => s'
     | .error _ => s3).learning_results = s3.learning_results := by
  cases hd : s3.data_before_treatments with
  | some d => simp [undo_treatments, hd]
  | none => simp [undo_treatments, hd]

theorem decomposition_store_fields (args : DecompArgs α) (algorithm : AlgoId)
    (npn : Bool) (wu : Bool) (os : List ℕ) (navInc sigInc : Option (List Bool))
    (raG rbH : List α) (out : DispatchOut α) (vr : Option (List α))
    (nsc : Option ℕ) :
    (decomposition_store args algorithm npn wu os navInc sigInc raG rbH out vr nsc).unmixing_matrix = none ∧
    (decomposition_store args algorithm npn wu os navInc sigInc raG rbH out vr nsc).bss_factors = none ∧
    (decomposition_store args algorithm npn wu os navInc sigInc raG rbH out vr nsc).bss_loadings = none ∧
    (decomposition_store args algorithm npn wu os navInc sigInc raG rbH out vr nsc).bss_algorithm = none ∧
    (decomposition_store args algorithm npn wu os navInc sigInc raG rbH out vr nsc).navigation_mask
        = navInc.map (List.map not) ∧
    (decomposition_store args algorithm npn wu os navInc sigInc raG rbH out vr nsc).signal_mask
        = sigInc.map (List.map not) := by
  simp only [decomposition_store, crop_decomposition_dimension]
  repeat' split
  all_goals simp

/-- A successfully finished `try` block yields a target whose BSS block is
null and whose stored masks are the double negation of the caller's masks. -/
theorem decomposition_try_ok_fields {B : Backends α} {log sqrt : α → α}
    {args : DecompArgs α} {algorithm : AlgoId} {npn wu : Bool} {os : List ℕ}
    {s : PySignal α} {t : LearningResults α}
    (h : (decomposition_try B log sqrt args algorithm npn wu os s).1 = .ok t) :
    t.unmixing_matrix = none ∧ t.bss_factors = none ∧ t.bss_loadings = none ∧
      t.bss_algorithm = none ∧
      t.navigation_mask = (args.navigation_mask.map (List.map not)).map (List.map not) ∧
      t.signal_mask = (args.signal_mask.map (List.map not)).map (List.map not) := by
  simp only [decomposition_try] at h
  split at h
  · cases h
  · split at h
    · cases h
    · split at h
      · cases h
      · split at h
        · cases h
        · injection h with h'
          subst h'
          exact decomposition_store_fields ..

theorem mask_double_neg (m : Option (List Bool)) :
    (m.map (List.map not)).map (List.map not) = m := by
  cases m with
  | none => rfl
  | some l =>
    simp only [Option.map_some', Option.some.injEq, List.map_map]
    have h : List.map (not ∘ not) l = List.map id l :=
      List.map_congr_left (fun a _ => by simp)
    rw [h, List.map_id]

/-- A successful `decomposition` stores the `try` block's target verbatim as
the new `learning_results`. -/
theorem decomposition_ok_lr {B : Backends α} {log sqrt : α → α}
    {args : DecompArgs α} {wu : Bool} {os : List ℕ} {s : PySignal α}
    (h : (decomposition B log sqrt args wu os s).1 = .ok ()) :
    ∃ t, (decomposition B log sqrt args wu os s).2.learning_results = t ∧
      t.unmixing_matrix = none ∧ t.bss_factors = none ∧ t.bss_loadings = none ∧
      t.bss_algorithm = none ∧ t.navigation_mask = args.navigation_mask ∧
      t.signal_mask = args.signal_mask := by
  simp only [decomposition] at h ⊢
  split at h
  · cases h
  · set s1 := (if args.copy then { s with data_before_treatments := some s.data } else s)
      with hs1
    split at h
    · rename_i t htry
      refine ⟨t, ?_, ?_⟩
      · simp only [htry]
        split
        · rw [undo_branch_lr]
        · rfl
      · have := decomposition_try_ok_fields htry
        rw [mask_double_neg, mask_double_neg] at this
        exact this
    · cases h

end DecompositionLemmas

/-- A backend family whose every member raises: exercises mid-fit failures. -/
def failingBackends : Backends ℚ :=
  ⟨false, fun _ => .error .backendError, fun _ _ _ => .error .backendError,
   fun _ _ => .error .backendError, fun _ _ => .error .backendError,
   fun _ _ => .error .backendError, fun _ => .error .backendError⟩

/-- Backends whose `svd_pca` succeeds with tiny constant matrices (and no
explained-variance vector); the others still fail. -/
def svdOkBackends : Backends ℚ :=
  { failingBackends with
    svd_pca := fun _ => .ok ([[some 1], [some 2]], [[some 3], [some 4]], none, none) }

/-- A signal state whose `learning_results` hold an earlier decomposition
and BSS outcome, to observe what a later call does to them. -/
def priorState : PySignal ℚ :=
  ⟨[[1, 2], [3, 4]],
   { LearningResults.init with
     factors := some [[some 5]], loadings := some [[some 6]],
     bss_factors := some [[some 7]], bss_loadings := some [[some 8]],
     unmixing_matrix := some [[some 1]], bss_algorithm := some (.name "orthomax") },
   none, none, none⟩

/-- Default arguments: plain `svd`, no masks, no Poisson scaling, `copy=True`. -/
def defaultArgs : DecompArgs ℚ :=
  ⟨false, .name "svd", none, none, none, none, none, none, true⟩

section ClaimC4

/-- C4: after every successful `decomposition()` call — whatever the
algorithm, backends, arguments and prior state (including one holding the
results of an earlier `blind_source_separation`) — the stored BSS block
`unmixing_matrix` / `bss_factors` / `bss_loadings` / `bss_algorithm` of
`learning_results` is null: the finally-block replaces `learning_results`
with the fresh target, whose BSS fields are never assigned (and are
explicitly nulled at lines 549-552). -/
theorem C4_successful_decomposition_nulls_bss (B : Backends ℚ) (log sqrt : ℚ → ℚ)
    (args : DecompArgs ℚ) (wasUnfolded : Bool) (origShape : List ℕ) (s : PySignal ℚ)
    (hok : (decomposition B log sqrt args wasUnfolded origShape s).1 = .ok ()) :
    (decomposition B log sqrt args wasUnfolded origShape s).2.learning_results.unmixing_matrix = none ∧
    (decomposition B log sqrt args wasUnfolded origShape s).2.learning_results.bss_factors = none ∧
    (decomposition B log sqrt args wasUnfolded origShape s).2.learning_results.bss_loadings = none ∧
    (decomposition B log sqrt args wasUnfolded origShape s).2.learning_results.bss_algorithm = none := by
  obtain ⟨t, hlr, h1, h2, h3, h4, _, _⟩ := decomposition_ok_lr hok
  rw [hlr]
  exact ⟨h1, h2, h3, h4⟩

/-- Witness for C4: a concrete successful `svd` run over a state that still
holds BSS results from before; the theorem yields the nulled BSS block. -/
theorem C4_witness :
    (decomposition svdOkBackends id id defaultArgs false [] priorState).2.learning_results.unmixing_matrix = none ∧
    (decomposition svdOkBackends id id defaultArgs false [] priorState).2.learning_results.bss_factors = none ∧
    (decomposition svdOkBackends id id defaultArgs false [] priorState).2.learning_results.bss_loadings = none ∧
    (decomposition svdOkBackends id id defaultArgs false [] priorState).2.learning_results.bss_algorithm = none :=
  C4_successful_decomposition_nulls_bss svdOkBackends id id defaultArgs false [] priorState (by rfl)

end ClaimC4

section ClaimC9

/-- C9: on every successful `decomposition()` call the persisted masks keep
the caller's exclusion convention: the engine negates each given mask once
into an inclusion selector and stores its negation back
(`target.signal_mask = ~signal_mask`, lines 594/605), which is the original
mask again; when a mask argument is absent the stored mask is `None`.  (The
reshape to the navigation/signal array shape is the identity on the
flattened view modelled here.) -/
theorem C9_masks_stored_in_original_convention (B : Backends ℚ) (log sqrt : ℚ → ℚ)
    (args : DecompArgs ℚ) (wasUnfolded : Bool) (origShape : List ℕ) (s : PySignal ℚ)
    (hok : (decomposition B log sqrt args wasUnfolded origShape s).1 = .ok ()) :
    (decomposition B log sqrt args wasUnfolded origShape s).2.learning_results.navigation_mask
        = args.navigation_mask ∧
    (decomposition B log sqrt args wasUnfolded origShape s).2.learning_results.signal_mask
        = args.signal_mask := by
  obtain ⟨t, hlr, _, _, _, _, h5, h6⟩ := decomposition_ok_lr hok
  rw [hlr]
  exact ⟨h5, h6⟩

/-- Witness for C9: a successful masked run; the stored masks equal the
caller's exclusion masks, and the unmasked axis stores `None`. -/
theorem C9_witness :
    (decomposition svdOkBackends id id
        { defaultArgs with navigation_mask := some [false, false], signal_mask := some [false, true] }
        false [] priorState).2.learning_results.navigation_mask = some [false, false] ∧
    (decomposition svdOkBackends id id
        { defaultArgs with navigation_mask := some [false, false], signal_mask := some [false, true] }
        false [] priorState).2.learning_results.signal_mask = some [false, true] :=
  C9_masks_stored_in_original_convention svdOkBackends id id
    { defaultArgs with navigation_mask := some [false, false], signal_mask := some [false, true] }
    false [] priorState (by rfl)

end ClaimC9

section ClaimC1

/-- C1 (amended): when a `decomposition()` call that passed the pre-`try`
validation raises (for example a backend failure mid-fit) with `copy=True`,
the `finally` block restores the dataset's data from the snapshot — but it
also unconditionally merges the fresh target's `__dict__` into
`learning_results`, so every stored field is overwritten with the
all-`None` fresh `LearningResults`: no partial result of the failed fit is
exposed, yet the pre-call results are cleared rather than preserved. -/
theorem C1_failed_decomposition_restores_data_but_clears_results
    (B : Backends ℚ) (log sqrt : ℚ → ℚ) (args : DecompArgs ℚ) (wasUnfolded : Bool)
    (origShape : List ℕ) (s : PySignal ℚ) (e : PyErr)
    (hcopy : args.copy = true)
    (hpre : decomposition_precheck B.sklearn_installed (resolveAlgorithm args.algorithm)
        args.output_dimension s = none)
    (herr : (decomposition B log sqrt args wasUnfolded origShape s).1 = .error e) :
    (decomposition B log sqrt args wasUnfolded origShape s).2.data = s.data ∧
    (decomposition B log sqrt args wasUnfolded origShape s).2.learning_results
        = LearningResults.init := by
  simp only [decomposition, hpre, hcopy, if_true] at herr ⊢
  split at herr
  · cases herr
  · have hsnap := (decomposition_try_state B log sqrt args (resolveAlgorithm args.algorithm)
      (effective_npn (resolveAlgorithm args.algorithm) args.normalize_poissonian_noise)
      wasUnfolded origShape
      { s with data_before_treatments := some s.data }).1
    rw [hsnap]
    simp only [undo_treatments]
    exact ⟨trivial, trivial⟩

/-- Witness for C1's amended statement: a concrete `svd` run whose backend
raises; the data is restored and the learning results are reset. -/
theorem C1_witness :
    (decomposition failingBackends id id defaultArgs false [] priorState).2.data
        = priorState.data ∧
    (decomposition failingBackends id id defaultArgs false [] priorState).2.learning_results
        = LearningResults.init :=
  C1_failed_decomposition_restores_data_but_clears_results failingBackends id id
    defaultArgs false [] priorState .backendError rfl (by rfl) (by rfl)

/-- Counterexample to C1 as stated: with a prior decomposition stored
(`factors = some [[5]]`), a failing `svd` backend and `copy=True`, the claim
demands that `learning_results.factors` be unchanged by the failed call, but
after the call it is `None` — the `finally` block overwrote it with the
fresh target. -/
theorem C1_counterexample :
    (decomposition failingBackends id id defaultArgs false [] priorState).1
        = .error .backendError ∧
    (decomposition failingBackends id id defaultArgs false [] priorState).2.learning_results.factors
        ≠ priorState.learning_results.factors := by
  constructor
  · rfl
  · intro h
    rw [show (decomposition failingBackends id id defaultArgs false [] priorState).2.learning_results.factors = none from rfl] at h
    simp [priorState] at h

end ClaimC1

/-- Does the `algorithm` argument reach any factorization branch of the
dispatch: the built-in names of lines 409-493, a scikit-learn identifier, or
an estimator satisfying the capability set `fit_transform` / `fit`+`transform`
(lines 302-311)?  Line 522 raises `'algorithm' not recognised` exactly when
this is false. -/
def isRecognisedAlgo : AlgoId → Bool
  | .name a => decide (a = "svd") || decide (a ∈ requiresDimNames) || decide (a ∈ sklearnNames)
  | .estimator ftf fit tr => ftf || (fit && tr)

/-- `mlpca` is recognised, so an unrecognised algorithm never triggers the
`normalize_poissonian_noise = False` forcing of lines 314-321. -/
theorem effective_npn_unrecognised (alg : AlgoId) (npn : Bool)
    (h : isRecognisedAlgo alg = false) :
    effective_npn alg npn = npn := by
  unfold effective_npn
  split
  · rename_i hcon
    exfalso
    rw [hcon.1] at h
    exact absurd h (by decide)
  · rfl

/-- The pre-`try` validation passes for an unrecognised algorithm on data
with at least two navigation rows: neither the `output_dimension` requirement
nor the scikit-learn availability check can fire. -/
theorem decomposition_precheck_unrecognised {α : Type} [LinearOrderedField α]
    (sk : Bool) (alg : AlgoId) (od : Option ℕ) (s : PySignal α)
    (hlen : 2 ≤ s.data.length) (h : isRecognisedAlgo alg = false) :
    decomposition_precheck sk alg od s = none := by
  have h1 : requiresDim alg = false := by
    cases alg with
    | name a =>
      simp only [isRecognisedAlgo, Bool.or_eq_false_iff, decide_eq_false_iff_not] at h
      simp only [requiresDim]
      simpa using h.1.2
    | estimator ftf fit tr => rfl
  have h2 : isSklearnName alg = false := by
    cases alg with
    | name a =>
      simp only [isRecognisedAlgo, Bool.or_eq_false_iff, decide_eq_false_iff_not] at h
      simp only [isSklearnName]
      simpa using h.2
    | estimator ftf fit tr => rfl
  simp only [decomposition_precheck, h1, h2]
  rw [if_neg (by omega)]
  simp

/-- The dispatch of lines 409-522 falls through every factorization branch to
the line-522 `'algorithm' not recognised` error when the algorithm is
unrecognised, whatever the data. -/
theorem dispatch_unrecognised {α : Type} [LinearOrderedField α] (B : Backends α)
    (args : DecompArgs α) (alg : AlgoId)
    (h : isRecognisedAlgo alg = false) (d : Mat α) :
    dispatch B args alg (is_sklearn_like alg) d = .error .notRecognised := by
  cases alg with
  | name a =>
    simp only [isRecognisedAlgo, Bool.or_eq_false_iff, decide_eq_false_iff_not] at h
    obtain ⟨⟨hsvd, hreq⟩, hskl⟩ := h
    have hname : ∀ b : String, b ∈ "svd" :: requiresDimNames →
        ¬(AlgoId.name a = AlgoId.name b) := by
      intro b hb heq
      rw [AlgoId.name.injEq] at heq
      subst heq
      rcases List.mem_cons.mp hb with rfl | hb'
      · exact hsvd rfl
      · exact hreq hb'
    have hsl : is_sklearn_like (.name a) = false := by
      simp only [is_sklearn_like]
      simpa using hskl
    simp only [dispatch]
    rw [if_neg (hname "svd" (by decide)),
        if_neg (hname "mlpca" (by decide)),
        if_neg (hname "rpca" (by decide)),
        if_neg (hname "orpca" (by decide)),
        if_neg (hname "ornmf" (by decide))]
    simp [hsl]
  | estimator ftf fit tr =>
    simp only [isRecognisedAlgo] at h
    simp only [dispatch, is_sklearn_like, h]
    rw [if_neg (by simp), if_neg (by simp), if_neg (by simp), if_neg (by simp),
        if_neg (by simp)]
    simp

/-- The `try` block of `decomposition` ends in the `'algorithm' not
recognised` error whenever the algorithm is unrecognised and the Poisson
pre-treatment stage — the lines 366-368 centre conflict and the
`normalize_poissonian_noise` call itself — does not raise first. -/
theorem decomposition_try_unrecognised {α : Type} [LinearOrderedField α]
    (B : Backends α) (log sqrt : α → α) (args : DecompArgs α) (alg : AlgoId)
    (npn : Bool) (wu : Bool) (os : List ℕ) (s : PySignal α)
    (halg : isRecognisedAlgo alg = false)
    (hnpn : npn = true → args.centre.isSome = false ∧
        ∃ t', normalize_poissonian_noise sqrt args.navigation_mask args.signal_mask s
          = .ok t') :
    (decomposition_try B log sqrt args alg npn wu os s).1 = .error .notRecognised := by
  cases npn with
  | false =>
    simp only [decomposition_try]
    rw [if_neg (by simp)]
    simp only [Bool.false_eq_true, if_false, dispatch_unrecognised B args alg halg]
  | true =>
    obtain ⟨hcentre, t', hok⟩ := hnpn rfl
    simp only [decomposition_try]
    rw [if_neg (by simp [hcentre])]
    simp only [reduceIte, hok, dispatch_unrecognised B args alg halg]

section ClaimC5

/-- C5 (amended): on a dataset passing the type and navigation-size checks,
`decomposition()` fails with a `ConfigurationError`-class `ValueError`,
without invoking any factorization backend (the conclusion holds for *every*
backend family `B`): (a) when the algorithm is one of `mlpca`, `rpca`,
`orpca`, `ornmf` and `output_dimension` is `None` — before the `try` block,
leaving the whole state untouched; (b) when the algorithm is `mlpca` and both
`var_array` and `var_func` are given (the error is `requiresOutputDimension`
when `output_dimension` is also absent, `varConflict` otherwise); (c) when
the identifier is not recognised and the estimator capability set is not
satisfied, *provided* the call has not already failed during Poisson
pre-treatment — the hypothesis asks exactly that, when Poisson scaling is
enabled, the centre conflict of line 368 does not fire and
`normalize_poissonian_noise` returns instead of raising; with it disabled
the proviso is vacuous.  (On a non-positive dataset with Poisson scaling the
pre-treatment raises `DomainError` first: see the counterexample.) -/
theorem C5_configuration_errors :
    (∀ (B : Backends ℚ) (log sqrt : ℚ → ℚ) (args : DecompArgs ℚ) (wu : Bool)
        (os : List ℕ) (s : PySignal ℚ) (a : String),
        2 ≤ s.data.length →
        resolveAlgorithm args.algorithm = .name a →
        a ∈ requiresDimNames →
        args.output_dimension = none →
        (decomposition B log sqrt args wu os s).1 = .error .requiresOutputDimension ∧
          (decomposition B log sqrt args wu os s).2 = s) ∧
    (∀ (B : Backends ℚ) (log sqrt : ℚ → ℚ) (args : DecompArgs ℚ) (wu : Bool)
        (os : List ℕ) (s : PySignal ℚ),
        2 ≤ s.data.length →
        resolveAlgorithm args.algorithm = .name "mlpca" →
        args.var_array.isSome → args.var_func.isSome →
        ((decomposition B log sqrt args wu os s).1 = .error .requiresOutputDimension ∨
          (decomposition B log sqrt args wu os s).1 = .error .varConflict)) ∧
    (∀ (B : Backends ℚ) (log sqrt : ℚ → ℚ) (args : DecompArgs ℚ) (wu : Bool)
        (os : List ℕ) (s : PySignal ℚ),
        2 ≤ s.data.length →
        isRecognisedAlgo (resolveAlgorithm args.algorithm) = false →
        (args.normalize_poissonian_noise = true →
          args.centre.isSome = false ∧
          ∃ t', normalize_poissonian_noise sqrt args.navigation_mask args.signal_mask
              (if args.copy then { s with data_before_treatments := some s.data } else s)
            = .ok t') →
        (decomposition B log sqrt args wu os s).1 = .error .notRecognised) := by
  have partA : ∀ (B : Backends ℚ) (log sqrt : ℚ → ℚ) (args : DecompArgs ℚ) (wu : Bool)
      (os : List ℕ) (s : PySignal ℚ) (a : String),
      2 ≤ s.data.length →
      resolveAlgorithm args.algorithm = .name a →
      a ∈ requiresDimNames →
      args.output_dimension = none →
      (decomposition B log sqrt args wu os s).1 = .error .requiresOutputDimension ∧
        (decomposition B log sqrt args wu os s).2 = s := by
    intro B log sqrt args wu os s a hlen halg hmem hod
    have hcont : requiresDim (.name a) = true := by
      simp only [requiresDim]
      exact List.elem_eq_true_of_mem hmem
    have hpre : decomposition_precheck B.sklearn_installed (resolveAlgorithm args.algorithm)
        args.output_dimension s = some .requiresOutputDimension := by
      rw [halg]
      simp only [decomposition_precheck, hcont, hod]
      rw [if_neg (by omega)]
      simp
    refine ⟨?_, ?_⟩ <;> simp only [decomposition, hpre]
  refine ⟨partA, ?_, ?_⟩
  · -- part (b): mlpca with conflicting variance model
    intro B log sqrt args wu os s hlen halg hva hvf
    cases hod : args.output_dimension with
    | none =>
      exact Or.inl (partA B log sqrt args wu os s "mlpca" hlen halg (by decide) hod).1
    | some n =>
      refine Or.inr ?_
      have hpre : decomposition_precheck B.sklearn_installed (AlgoId.name "mlpca")
          args.output_dimension s = none := by
        simp only [decomposition_precheck, hod]
        rw [if_neg (by omega)]
        simp [isSklearnName, sklearnNames]
      have htry : ∀ s' : PySignal ℚ,
          (decomposition_try B log sqrt args (.name "mlpca") false wu os s').1
            = .error .varConflict := by
        intro s'
        simp only [decomposition_try]
        rw [if_neg (by simp)]
        simp only [Bool.false_eq_true, if_false]
        simp [dispatch, hva, hvf]
      have hnpn : effective_npn (AlgoId.name "mlpca") args.normalize_poissonian_noise
          = false := by
        unfold effective_npn
        by_cases h : args.normalize_poissonian_noise = true
        · rw [if_pos ⟨rfl, h⟩]
        · simp at h
          simp [h]
      simp only [decomposition, halg, hpre, hnpn, htry]
  · -- part (c): unrecognised identifier or incapable estimator
    intro B log sqrt args wu os s hlen hrec hnpn
    have heff := effective_npn_unrecognised (resolveAlgorithm args.algorithm)
      args.normalize_poissonian_noise hrec
    have hpre := decomposition_precheck_unrecognised B.sklearn_installed
      (resolveAlgorithm args.algorithm) args.output_dimension s hlen hrec
    have htry := decomposition_try_unrecognised B log sqrt args
      (resolveAlgorithm args.algorithm) args.normalize_poissonian_noise wu os
      (if args.copy then { s with data_before_treatments := some s.data } else s)
      hrec hnpn
    simp only [decomposition, hpre, heff, htry]

/-- Counterexample to C5 as stated: with the unrecognised identifier `"foo"`
but `normalize_poissonian_noise=True` on a dataset containing a zero, the
call fails with the Poisson `DomainError` (raised inside the `try` block
before the dispatch) rather than with any `ConfigurationError`-class
error. -/
theorem C5_counterexample :
    (decomposition failingBackends id id
        ⟨true, .name "foo", none, none, none, none, none, none, true⟩
        false [] ⟨[[0, 1], [1, 1]], LearningResults.init, none, none, none⟩).1
      = .error .domainError ∧
    (PyErr.domainError ∉
      [PyErr.requiresOutputDimension, PyErr.varConflict, PyErr.notRecognised]) := by
  exact ⟨rfl, by decide⟩

/-- Witness for C5: the three amended statements applied at concrete calls:
`rpca` without `output_dimension`, `mlpca` with both variance arguments, and
the unrecognised identifier `"foo"` with Poisson normalization *enabled* on
strictly positive data — the pre-treatment succeeds and the line-522
`ConfigurationError` is still reached. -/
theorem C5_witness :
    ((decomposition failingBackends id id
        ⟨false, .name "rpca", none, none, none, none, none, none, true⟩
        false [] priorState).1 = .error .requiresOutputDimension ∧
      (decomposition failingBackends id id
        ⟨false, .name "rpca", none, none, none, none, none, none, true⟩
        false [] priorState).2 = priorState) ∧
    ((decomposition failingBackends id id
        ⟨false, .name "mlpca", some 2, none, none, none, some [[1]],
          some (.poly [1]), true⟩
        false [] priorState).1 = .error .requiresOutputDimension ∨
      (decomposition failingBackends id id
        ⟨false, .name "mlpca", some 2, none, none, none, some [[1]],
          some (.poly [1]), true⟩
        false [] priorState).1 = .error .varConflict) ∧
    (decomposition failingBackends id id
        ⟨true, .name "foo", none, none, none, some [false, false], none, none, true⟩
        false [] ⟨[[1, 2], [3, 4]], LearningResults.init, none, none, none⟩).1
      = .error .notRecognised := by
  refine ⟨?_, ?_, ?_⟩
  · exact C5_configuration_errors.1 failingBackends id id _ false [] priorState "rpca"
      (by decide) rfl (by decide) rfl
  · exact C5_configuration_errors.2.1 failingBackends id id _ false [] priorState
      (by decide) rfl rfl rfl
  · exact C5_configuration_errors.2.2 failingBackends id id _ false []
      ⟨[[1, 2], [3, 4]], LearningResults.init, none, none, none⟩
      (by decide) (by decide) (fun _ => ⟨rfl, ⟨_, rfl⟩⟩)

end ClaimC5

section BssReversal

variable {α : Type} [LinearOrderedField α]

/-- Column `i` of a `MatO` matrix (`values[:, i]`). -/
def getColO (i : ℕ) (m : MatO α) : List (Option α) :=
  m.map (fun r => r.getD i none)

/-- Negation of a possibly-NaN entry (`-NaN = NaN`). -/
def negO : Option α → Option α := Option.map (fun x => -x)

/-- Negate column `i` of a matrix in place (`values[:, i] *= -1`). -/
def negColO (i : ℕ) (m : MatO α) : MatO α :=
  m.map (fun r => r.set i (negO (r.getD i none)))

/-- Negate row `i` of a matrix in place (`unmixing_matrix[i, :] *= -1`). -/
def negRowO (i : ℕ) (m : MatO α) : MatO α :=
  m.set i ((m.getD i []).map negO)

/-- NumPy `nanmin` over a column: minimum ignoring NaN entries (on an
all-NaN column it yields NaN, i.e. `none`, and every comparison against it
is false). -/
def nanmin (col : List (Option α)) : Option α := listMin (col.filterMap id)

/-- NumPy `nanmax`, same conventions as `nanmin`. -/
def nanmax (col : List (Option α)) : Option α := listMax (col.filterMap id)

/-- MVA.reverse_bss_component (lines 1036-1065) acting on the stored triple
`(bss_factors, bss_loadings, unmixing_matrix)`: negate column `i` of both
component arrays and row `i` of the unmixing matrix.  The lazy-computation
guard of line 1053 is elided. -/
def reverse_bss_component (st : MatO α × MatO α × MatO α) (i : ℕ) :
    MatO α × MatO α × MatO α :=
  (negColO i st.1, negColO i st.2.1, negRowO i st.2.2)

/-- The test of lines 1093-1095: `minimum < 0 and -minimum > maximum` over
column `i` of the chosen reference array, NaN entries ignored. -/
def reverseCriterion (values : MatO α) (i : ℕ) : Bool :=
  match nanmin (getColO i values), nanmax (getColO i values) with
  | some mn, some mx => decide (mn < 0) && decide (-mn > mx)
  | _, _ => false

/-- One iteration of the loop of lines 1083-1096: evaluate the criterion on
the current state of the reference array and reverse component `i` when it
holds. -/
def reverseStep (useFactors : Bool) (s : MatO α × MatO α × MatO α) (i : ℕ) :
    MatO α × MatO α × MatO α :=
  if reverseCriterion (if useFactors then s.1 else s.2.1) i then
    reverse_bss_component s i
  else s

/-- MVA._auto_reverse_bss_component (lines 1081-1100): for each of the
`bss_factors.shape[1]` components, re-read the (possibly already partially
reversed) reference array, evaluate the criterion on its column, and reverse
the component when it holds.  `useFactors` selects the
`reverse_component_criterion` branch (`"factors"` / `"loadings"`; the
invalid-string `ValueError` of line 1089 is outside the model's input
space). -/
def auto_reverse_bss_component (useFactors : Bool)
    (st : MatO α × MatO α × MatO α) : MatO α × MatO α × MatO α :=
  (List.range (shapeCols st.1)).foldl (reverseStep useFactors) st

theorem getColO_negColO_ne {i j : ℕ} (h : i ≠ j) (m : MatO α) :
    getColO i (negColO j m) = getColO i m := by
  simp only [getColO, negColO, List.map_map]
  refine List.map_congr_left (fun r _ => ?_)
  simp only [Function.comp_apply]
  simp [List.getD, List.getElem?_set_ne (Ne.symm h)]

theorem getColO_negColO_self (i : ℕ) (m : MatO α) :
    getColO i (negColO i m) = (getColO i m).map negO := by
  simp only [getColO, negColO, List.map_map]
  refine List.map_congr_left (fun r _ => ?_)
  simp only [Function.comp_apply]
  rcases Nat.lt_or_ge i r.length with hlt | hge
  · simp [List.getD, List.getElem?_set_self, hlt]
  · rw [List.set_eq_of_length_le hge]
    simp [List.getD, List.getElem?_eq_none hge, negO]

theorem negRowO_getD_ne {i j : ℕ} (h : i ≠ j) (m : MatO α) :
    (negRowO j m).getD i [] = m.getD i [] := by
  simp [negRowO, List.getD, List.getElem?_set_ne (Ne.symm h)]

theorem negRowO_getD_self (i : ℕ) (m : MatO α) :
    (negRowO i m).getD i [] = (m.getD i []).map negO := by
  rcases Nat.lt_or_ge i m.length with hlt | hge
  · simp [negRowO, List.getD, List.getElem?_set_self, hlt]
  · simp only [negRowO]
    rw [List.set_eq_of_length_le hge]
    simp [List.getD, List.getElem?_eq_none hge]

/-- The criterion only reads the inspected column. -/
theorem reverseCriterion_congr {v v' : MatO α} {i : ℕ}
    (h : getColO i v = getColO i v') :
    reverseCriterion v i = reverseCriterion v' i := by
  simp only [reverseCriterion, h]

theorem reverseStep_eq (useFactors : Bool) (s : MatO α × MatO α × MatO α) (i : ℕ) :
    reverseStep useFactors s i
      = if reverseCriterion (if useFactors then s.1 else s.2.1) i then
          reverse_bss_component s i
        else s := rfl

theorem reverseStep_cols_ne (useFactors : Bool) (s : MatO α × MatO α × MatO α)
    {j i : ℕ} (h : i ≠ j) :
    getColO i (reverseStep useFactors s j).1 = getColO i s.1 ∧
    getColO i (reverseStep useFactors s j).2.1 = getColO i s.2.1 ∧
    (reverseStep useFactors s j).2.2.getD i [] = s.2.2.getD i [] := by
  unfold reverseStep
  by_cases hc : reverseCriterion (if useFactors then s.1 else s.2.1) j = true
  · rw [if_pos hc]
    exact ⟨getColO_negColO_ne h s.1, getColO_negColO_ne h s.2.1, negRowO_getD_ne h s.2.2⟩
  · rw [if_neg hc]
    exact ⟨rfl, rfl, rfl⟩

theorem foldl_reverseStep_cols (useFactors : Bool) (l : List ℕ)
    (s : MatO α × MatO α × MatO α) (i : ℕ) (h : ∀ j ∈ l, j ≠ i) :
    getColO i (l.foldl (reverseStep useFactors) s).1 = getColO i s.1 ∧
    getColO i (l.foldl (reverseStep useFactors) s).2.1 = getColO i s.2.1 ∧
    (l.foldl (reverseStep useFactors) s).2.2.getD i [] = s.2.2.getD i [] := by
  induction l generalizing s with
  | nil => exact ⟨rfl, rfl, rfl⟩
  | cons j js ih =>
    have hj : i ≠ j := (h j (List.mem_cons_self j js)).symm
    obtain ⟨h1, h2, h3⟩ := reverseStep_cols_ne useFactors s (j := j) hj
    obtain ⟨g1, g2, g3⟩ := ih (reverseStep useFactors s j)
      (fun b hb => h b (List.mem_cons_of_mem j hb))
    exact ⟨g1.trans h1, g2.trans h2, g3.trans h3⟩

theorem foldl_range_reverseStep_spec (useFactors : Bool) (n : ℕ)
    (st : MatO α × MatO α × MatO α) :
    ∀ i, i < n →
      (getColO i ((List.range n).foldl (reverseStep useFactors) st).1
          = (if reverseCriterion (if useFactors then st.1 else st.2.1) i then
              (getColO i st.1).map negO
            else getColO i st.1) ∧
        getColO i ((List.range n).foldl (reverseStep useFactors) st).2.1
          = (if reverseCriterion (if useFactors then st.1 else st.2.1) i then
              (getColO i st.2.1).map negO
            else getColO i st.2.1) ∧
        ((List.range n).foldl (reverseStep useFactors) st).2.2.getD i []
          = (if reverseCriterion (if useFactors then st.1 else st.2.1) i then
              (st.2.2.getD i []).map negO
            else st.2.2.getD i [])) := by
  induction n with
  | zero => intro i hi; omega
  | succ n ih =>
    intro i hi
    have hsplit : (List.range (n + 1)).foldl (reverseStep useFactors) st
        = reverseStep useFactors ((List.range n).foldl (reverseStep useFactors) st) n := by
      rw [List.range_succ, List.foldl_append]
      rfl
    rcases Nat.lt_succ_iff_lt_or_eq.mp hi with hlt | heqn
    · rw [hsplit]
      obtain ⟨h1, h2, h3⟩ := reverseStep_cols_ne useFactors
        ((List.range n).foldl (reverseStep useFactors) st) (j := n) (Nat.ne_of_lt hlt)
      obtain ⟨g1, g2, g3⟩ := ih i hlt
      exact ⟨h1.trans g1, h2.trans g2, h3.trans g3⟩
    · -- i = n: the columns of index n are untouched by the first n iterations
      subst heqn
      obtain ⟨p1, p2, p3⟩ := foldl_reverseStep_cols useFactors (List.range i) st i
        (fun j hj => Nat.ne_of_lt (List.mem_range.mp hj))
      have hcond : reverseCriterion
          (if useFactors then ((List.range i).foldl (reverseStep useFactors) st).1
           else ((List.range i).foldl (reverseStep useFactors) st).2.1) i
          = reverseCriterion (if useFactors then st.1 else st.2.1) i := by
        cases useFactors
        · simpa using reverseCriterion_congr p2
        · simpa using reverseCriterion_congr p1
      rw [hsplit, reverseStep_eq, hcond]
      by_cases hc : reverseCriterion (if useFactors then st.1 else st.2.1) i = true
      · rw [if_pos hc, if_pos hc, if_pos hc, if_pos hc]
        refine ⟨?_, ?_, ?_⟩
        · rw [show ∀ z, (reverse_bss_component z i).1 = negColO i z.1 from fun z => rfl,
              getColO_negColO_self, p1]
        · rw [show ∀ z, (reverse_bss_component z i).2.1 = negColO i z.2.1 from fun z => rfl,
              getColO_negColO_self, p2]
        · rw [show ∀ z, (reverse_bss_component z i).2.2 = negRowO i z.2.2 from fun z => rfl,
              negRowO_getD_self, p3]
      · rw [if_neg hc, if_neg hc, if_neg hc, if_neg hc]
        exact ⟨p1, p2, p3⟩

end BssReversal

section ClaimC6

/-- C6: the sign-reversal pass.  First conjunct: the reversal test of lines
1093-1095 holds iff the NaN-ignoring minimum `m` and maximum `M` of the
inspected column satisfy `m < 0` and `|m| = -m > M`.  Second conjunct: for
every component index `i`, `_auto_reverse_bss_component` negates column `i`
of both `bss_factors` and `bss_loadings` and row `i` of the unmixing matrix
exactly when the criterion holds on column `i` of the chosen reference array
(the criterion is evaluated against the original state: earlier iterations
only touch earlier columns).  Third conjunct: the concrete example — a
reference column `[-5, 1, 2]` is reversed, `[-1, 5, 2]` is not. -/
theorem C6_auto_reverse_negates_iff_criterion :
    (∀ (v : MatO ℚ) (i : ℕ),
        reverseCriterion v i = true ↔
          ∃ mn mx, nanmin (getColO i v) = some mn ∧ nanmax (getColO i v) = some mx ∧
            mn < 0 ∧ -mn > mx) ∧
    (∀ (useFactors : Bool) (st : MatO ℚ × MatO ℚ × MatO ℚ) (i : ℕ),
        i < shapeCols st.1 →
        getColO i (auto_reverse_bss_component useFactors st).1
            = (if reverseCriterion (if useFactors then st.1 else st.2.1) i then
                (getColO i st.1).map negO
              else getColO i st.1) ∧
          getColO i (auto_reverse_bss_component useFactors st).2.1
            = (if reverseCriterion (if useFactors then st.1 else st.2.1) i then
                (getColO i st.2.1).map negO
              else getColO i st.2.1) ∧
          (auto_reverse_bss_component useFactors st).2.2.getD i []
            = (if reverseCriterion (if useFactors then st.1 else st.2.1) i then
                (st.2.2.getD i []).map negO
              else st.2.2.getD i [])) ∧
    auto_reverse_bss_component (α := ℚ) true
        ([[some (-5), some (-1)], [some 1, some 5], [some 2, some 2]],
         [[some 1, some 2]], [[some 1, some 0], [some 0, some 1]])
      = ([[some 5, some (-1)], [some (-1), some 5], [some (-2), some 2]],
         [[some (-1), some 2]], [[some (-1), some 0], [some 0, some 1]]) := by
  refine ⟨?_, ?_, by decide⟩
  · intro v i
    cases hmin : nanmin (getColO i v) with
    | none => simp [reverseCriterion, hmin]
    | some mn =>
      cases hmax : nanmax (getColO i v) with
      | none => simp [reverseCriterion, hmin, hmax]
      | some mx => simp [reverseCriterion, hmin, hmax]
  · intro useFactors st i hi
    exact foldl_range_reverseStep_spec useFactors (shapeCols st.1) st i hi

/-- Witness for C6: the characterization applied at the concrete state above,
component 0 (`[-5, 1, 2]` reversed) — hypotheses discharged by computation. -/
theorem C6_witness :
    (reverseCriterion
        (α := ℚ) [[some (-5), some (-1)], [some 1, some 5], [some 2, some 2]] 0 = true ↔
      ∃ mn mx,
        nanmin (getColO 0 (α := ℚ) [[some (-5), some (-1)], [some 1, some 5], [some 2, some 2]]) = some mn ∧
        nanmax (getColO 0 (α := ℚ) [[some (-5), some (-1)], [some 1, some 5], [some 2, some 2]]) = some mx ∧
        mn < 0 ∧ -mn > mx) ∧
    getColO 0 (auto_reverse_bss_component true
        ([[some (-5), some (-1)], [some 1, some 5], [some 2, some 2]],
         [[some 1, some 2]], [[some (1 : ℚ), some 0], [some 0, some 1]])).1
      = (if reverseCriterion
            (α := ℚ) [[some (-5), some (-1)], [some 1, some 5], [some 2, some 2]] 0 then
          (getColO 0 (α := ℚ) [[some (-5), some (-1)], [some 1, some 5], [some 2, some 2]]).map negO
        else getColO 0 (α := ℚ) [[some (-5), some (-1)], [some 1, some 5], [some 2, some 2]]) := by
  constructor
  · exact C6_auto_reverse_negates_iff_criterion.1
      [[some (-5), some (-1)], [some 1, some 5], [some 2, some 2]] 0
  · exact (C6_auto_reverse_negates_iff_criterion.2.1 true
      ([[some (-5), some (-1)], [some 1, some 5], [some 2, some 2]],
       [[some 1, some 2]], [[some (1 : ℚ), some 0], [some 0, some 1]]) 0 (by decide)).1

end ClaimC6

section ClaimC8

/-- Backends whose `mlpca` / `rpca_godec` return a fixed `(U, S, V)` with
`U : 2 × 2` (navigation rows), `S = [2, 2]`, `V : 3 × 2` (signal rows). -/
def svalBackends : Backends ℚ :=
  { failingBackends with
    mlpca := fun _ _ _ =>
      .ok ([[some 1, some 0], [some 0, some 1]], [2, 2],
           [[some 1, some 0], [some 0, some 1], [some 0, some 0]])
    rpca_godec := fun _ _ =>
      .ok ([[some 1, some 0], [some 0, some 1]], [2, 2],
           [[some 1, some 0], [some 0, some 1], [some 0, some 0]]) }

/-- C8 (amended): in the `mlpca` and `rpca` branches the stored
`explained_variance` is the element-wise square of the backend's singular
values divided by `len(factors)` — the number of *rows of the factors matrix
`V`* (the signal dimension) — not by the number of rows of the loadings
matrix. -/
theorem C8_explained_variance_uses_factor_rows (B : Backends ℚ)
    (args : DecompArgs ℚ) (U : MatO ℚ) (S : List ℚ) (V : MatO ℚ) (data_ : Mat ℚ)
    (hva : args.var_array = none) (hvf : args.var_func = none)
    (hmlpca : B.mlpca data_ data_ (args.output_dimension.getD 0) = .ok (U, S, V))
    (hrpca : B.rpca_godec data_ (args.output_dimension.getD 0) = .ok (U, S, V)) :
    (∃ out, dispatch B args (.name "mlpca") false data_ = .ok out ∧
       out.factors = V ∧ out.loadings = mulColsO U S ∧
       out.explained_variance
         = some (S.map (fun x => x ^ 2 / (out.factors.length : ℚ)))) ∧
    (∃ out, dispatch B args (.name "rpca") false data_ = .ok out ∧
       out.factors = V ∧ out.loadings = mulColsO U S ∧
       out.explained_variance
         = some (S.map (fun x => x ^ 2 / (out.factors.length : ℚ)))) := by
  constructor
  · have h : dispatch B args (.name "mlpca") false data_
        = .ok ⟨V, mulColsO U S, some (S.map (fun x => x ^ 2 / (V.length : ℚ))),
               none, args.centre⟩ := by
      simp [dispatch, hva, hvf, hmlpca]
    exact ⟨_, h, rfl, rfl, rfl⟩
  · have h : dispatch B args (.name "rpca") false data_
        = .ok ⟨V, mulColsO U S, some (S.map (fun x => x ^ 2 / (V.length : ℚ))),
               none, args.centre⟩ := by
      simp [dispatch, hrpca]
    exact ⟨_, h, rfl, rfl, rfl⟩

/-- Witness for C8's amended statement at the concrete backends above. -/
theorem C8_witness :
    (∃ out, dispatch svalBackends
        ⟨false, .name "mlpca", some 2, none, none, none, none, none, true⟩
        (.name "mlpca") false [[1, 0, 0], [0, 1, 0]] = .ok out ∧
      out.factors = [[some 1, some 0], [some 0, some 1], [some 0, some 0]] ∧
      out.loadings = mulColsO [[some 1, some 0], [some 0, some 1]] [2, 2] ∧
      out.explained_variance
        = some ([2, 2].map (fun x : ℚ => x ^ 2 / (out.factors.length : ℚ)))) ∧
    (∃ out, dispatch svalBackends
        ⟨false, .name "mlpca", some 2, none, none, none, none, none, true⟩
        (.name "rpca") false [[1, 0, 0], [0, 1, 0]] = .ok out ∧
      out.factors = [[some 1, some 0], [some 0, some 1], [some 0, some 0]] ∧
      out.loadings = mulColsO [[some 1, some 0], [some 0, some 1]] [2, 2] ∧
      out.explained_variance
        = some ([2, 2].map (fun x : ℚ => x ^ 2 / (out.factors.length : ℚ)))) := by
  exact C8_explained_variance_uses_factor_rows svalBackends
    ⟨false, .name "mlpca", some 2, none, none, none, none, none, true⟩
    [[some 1, some 0], [some 0, some 1]] [2, 2]
    [[some 1, some 0], [some 0, some 1], [some 0, some 0]]
    [[1, 0, 0], [0, 1, 0]] rfl rfl rfl rfl

/-- Counterexample to C8 as stated: in the `mlpca` branch (line 452), with a
backend reporting `S = [2, 2]`, `U` with 2 navigation rows and `V` with 3
signal rows, the produced `explained_variance` is `[4/3, 4/3]` — the squares
divided by `len(factors) = 3` — while the loadings matrix `U * S` has
`n_loadings = 2` rows and the claim predicts `S² / n_loadings = [2, 2]`;
`4/3 ≠ 2²/2`.  (The storage pipeline of lines 533-545 stores this vector
verbatim.) -/
theorem C8_counterexample :
    dispatch svalBackends
        ⟨false, .name "mlpca", some 2, none, none, none, none, none, true⟩
        (.name "mlpca") false [[1, 0, 0], [0, 1, 0]]
      = .ok ⟨[[some 1, some 0], [some 0, some 1], [some 0, some 0]],
             [[some 2, some 0], [some 0, some 2]],
             some [4 / 3, 4 / 3], none, none⟩ ∧
    ([[some (2 : ℚ), some 0], [some 0, some 2]] : MatO ℚ).length = 2 ∧
    (4 : ℚ) / 3 ≠ (2 : ℚ) ^ 2 / 2 := by
  refine ⟨?_, rfl, by norm_num⟩
  unfold dispatch
  rw [if_neg (by decide), if_pos rfl, if_neg (by simp)]
  norm_num [svalBackends, mulColsO]

end ClaimC8

section NormalizeComponents

variable {α : Type} [LinearOrderedField α]

/-- Dot product of two equal-length rows. -/
def dotL (r s : List α) : α := (List.zipWith (· * ·) r s).sum

/-- The reconstruction product `factors @ loadings.T` (as in
`_calculate_recmatrix`, lines 1124-1131): entry `(i, j)` is the dot product
of row `i` of `A` with row `j` of `B`. -/
def matmulT (A B : Mat α) : Mat α :=
  A.map (fun ra => B.map (fun rb => dotL ra rb))

/-- The columns of a matrix (`axis=0` slices of `function(target, axis=0)`). -/
def columnsOf (m : Mat α) : List (List α) :=
  (List.range (shapeCols m)).map (fun j => m.map (fun r => r.getD j 0))

/-- _normalize_components (lines 83-87): `coeff = function(target, axis=0)`,
then `target /= coeff`, `other *= coeff` (columnwise broadcasts).  The NumPy
aggregate `function` is modelled as a per-column scalar function `f`. -/
def normalize_components (f : List α → α) (target other : Mat α) : Mat α × Mat α :=
  let coeff := (columnsOf target).map f
  (target.map (fun row => row.zipWith (fun x c => x / c) coeff),
   other.map (fun row => row.zipWith (fun x c => x * c) coeff))

/-- MVA.normalize_decomposition_components (lines 951-976) on the stored
`(factors, loadings)` pair, returning the updated pair; the `None`-result
guard of line 973 is elided (a decomposition is assumed stored). -/
def normalize_decomposition_components (f : List α → α) (target : String)
    (factors loadings : Mat α) : Except PyErr (Mat α × Mat α) :=
  if target = "factors" then
    .ok ((normalize_components f factors loadings).1,
         (normalize_components f factors loadings).2)
  else if target = "loadings" then
    .ok ((normalize_components f loadings factors).2,
         (normalize_components f loadings factors).1)
  else .error .invalidTarget

/-- MVA.normalize_bss_components (lines 978-1005): the same body acting on
`(bss_factors, bss_loadings)`. -/
def normalize_bss_components (f : List α → α) (target : String)
    (bss_factors bss_loadings : Mat α) : Except PyErr (Mat α × Mat α) :=
  if target = "factors" then
    .ok ((normalize_components f bss_factors bss_loadings).1,
         (normalize_components f bss_factors bss_loadings).2)
  else if target = "loadings" then
    .ok ((normalize_components f bss_loadings bss_factors).2,
         (normalize_components f bss_loadings bss_factors).1)
  else .error .invalidTarget

theorem dotL_comm (r s : List α) : dotL r s = dotL s r := by
  induction r generalizing s with
  | nil => cases s <;> rfl
  | cons a as ih =>
    cases s with
    | nil => rfl
    | cons b bs =>
      simp only [dotL, List.zipWith_cons_cons, List.sum_cons] at ih ⊢
      rw [mul_comm, ih bs]

theorem dotL_div_mul_cancel (c : List α) :
    ∀ (r s : List α), (∀ x ∈ c, x ≠ 0) → r.length = c.length →
      s.length = c.length →
      dotL (List.zipWith (fun x c' => x / c') r c)
          (List.zipWith (fun x c' => x * c') s c)
        = dotL r s := by
  induction c with
  | nil =>
    intro r s _ hr hs
    simp only [List.length_nil, List.length_eq_zero] at hr hs
    subst hr
    subst hs
    rfl
  | cons c0 cs ih =>
    intro r s hne hr hs
    cases r with
    | nil => simp at hr
    | cons r0 rs =>
      cases s with
      | nil => simp at hs
      | cons s0 ss =>
        simp only [List.length_cons, Nat.succ.injEq] at hr hs
        have hc0 : c0 ≠ 0 := hne c0 (List.mem_cons_self c0 cs)
        simp only [dotL, List.zipWith_cons_cons, List.sum_cons] at ih ⊢
        rw [show r0 / c0 * (s0 * c0) = r0 * s0 by field_simp; ring,
            ih rs ss (fun x hx => hne x (List.mem_cons_of_mem c0 hx)) hr hs]

/-- The reconstruction product is unchanged by `_normalize_components`, in
both multiplication orders. -/
theorem matmulT_normalize_components (f : List α → α) (A B : Mat α) (k : ℕ)
    (hA : ∀ r ∈ A, r.length = k) (hB : ∀ r ∈ B, r.length = k)
    (hkA : shapeCols A = k)
    (hc : ∀ c ∈ (columnsOf A).map f, c ≠ 0) :
    matmulT (normalize_components f A B).1 (normalize_components f A B).2
        = matmulT A B ∧
      matmulT (normalize_components f A B).2 (normalize_components f A B).1
        = matmulT B A := by
  have hlen : ((columnsOf A).map f).length = k := by
    simp [columnsOf, hkA]
  have key : ∀ ra ∈ A, ∀ rb ∈ B,
      dotL (List.zipWith (fun x c => x / c) ra ((columnsOf A).map f))
          (List.zipWith (fun x c => x * c) rb ((columnsOf A).map f))
        = dotL ra rb := by
    intro ra hra rb hrb
    exact dotL_div_mul_cancel ((columnsOf A).map f) ra rb hc
      ((hA ra hra).trans hlen.symm) ((hB rb hrb).trans hlen.symm)
  constructor
  · simp only [normalize_components, matmulT, List.map_map]
    refine List.map_congr_left (fun ra hra => ?_)
    simp only [Function.comp_apply]
    refine List.map_congr_left (fun rb hrb => ?_)
    simp only [Function.comp_apply]
    exact key ra hra rb hrb
  · simp only [normalize_components, matmulT, List.map_map]
    refine List.map_congr_left (fun rb hrb => ?_)
    simp only [Function.comp_apply]
    refine List.map_congr_left (fun ra hra => ?_)
    simp only [Function.comp_apply]
    rw [dotL_comm]
    rw [key ra hra rb hrb, dotL_comm]

end NormalizeComponents

section ClaimC10

/-- C10: whenever the per-column coefficients `function(target, axis=0)` of
the chosen target array are all nonzero, `normalize_decomposition_components`
(and likewise `normalize_bss_components`) divides each target column by its
coefficient and multiplies the matching column of the other array by the
same coefficient, leaving the reconstruction product
`factors @ transpose(loadings)` unchanged, for both target choices. -/
theorem C10_normalize_components_preserves_reconstruction
    (f : List ℚ → ℚ) (factors loadings : Mat ℚ) (k : ℕ)
    (hf : ∀ r ∈ factors, r.length = k) (hl : ∀ r ∈ loadings, r.length = k)
    (hkf : shapeCols factors = k) (hkl : shapeCols loadings = k)
    (hcf : ∀ c ∈ (columnsOf factors).map f, c ≠ 0)
    (hcl : ∀ c ∈ (columnsOf loadings).map f, c ≠ 0) :
    (normalize_decomposition_components f "factors" factors loadings).map
        (fun r => matmulT r.1 r.2) = .ok (matmulT factors loadings) ∧
    (normalize_decomposition_components f "loadings" factors loadings).map
        (fun r => matmulT r.1 r.2) = .ok (matmulT factors loadings) ∧
    (normalize_bss_components f "factors" factors loadings).map
        (fun r => matmulT r.1 r.2) = .ok (matmulT factors loadings) ∧
    (normalize_bss_components f "loadings" factors loadings).map
        (fun r => matmulT r.1 r.2) = .ok (matmulT factors loadings) := by
  have h1 := matmulT_normalize_components f factors loadings k hf hl hkf hcf
  have h2 := matmulT_normalize_components f loadings factors k hl hf hkl hcl
  refine ⟨?_, ?_, ?_, ?_⟩
  · simp only [normalize_decomposition_components, Except.map, reduceIte, String.reduceEq]
    rw [h1.1]
  · simp only [normalize_decomposition_components, Except.map, reduceIte, String.reduceEq]
    rw [h2.2]
  · simp only [normalize_bss_components, Except.map, reduceIte, String.reduceEq]
    rw [h1.1]
  · simp only [normalize_bss_components, Except.map, reduceIte, String.reduceEq]
    rw [h2.2]

/-- Witness for C10 at a concrete decomposition: `f` the constant aggregate
`1`, `factors = [[1, 2]]`, `loadings = [[3, 4], [5, 6]]`. -/
theorem C10_witness :
    (normalize_decomposition_components (fun _ => (1 : ℚ)) "factors"
        [[1, 2]] [[3, 4], [5, 6]]).map (fun r => matmulT r.1 r.2)
      = .ok (matmulT [[1, 2]] [[3, 4], [5, 6]]) ∧
    (normalize_bss_components (fun _ => (1 : ℚ)) "loadings"
        [[1, 2]] [[3, 4], [5, 6]]).map (fun r => matmulT r.1 r.2)
      = .ok (matmulT [[1, 2]] [[3, 4], [5, 6]]) := by
  have h := C10_normalize_components_preserves_reconstruction
    (fun _ => (1 : ℚ)) [[1, 2]] [[3, 4], [5, 6]] 2
    (by intro r hr; simp at hr; simp [hr])
    (by intro r hr; simp at hr; rcases hr with rfl | rfl <;> rfl)
    (by rfl) (by rfl)
    (by intro c hc; rcases List.mem_map.mp hc with ⟨col, _, rfl⟩; norm_num)
    (by intro c hc; rcases List.mem_map.mp hc with ⟨col, _, rfl⟩; norm_num)
  exact ⟨h.1, h.2.2.2⟩

end ClaimC10

section ClaimC7

theorem abs_lt_abs_of_lt_of_neg_lt {a b : ℝ} (h1 : a < b) (h2 : -a < b) :
    |a| < |b| := by
  have hb : 0 < b := by
    rcases le_or_lt 0 a with h | h
    · linarith
    · linarith
  rw [abs_of_pos hb]
  exact abs_lt.mpr ⟨by linarith, h1⟩

/-- The distances of the spec's example curve in closed form. -/
theorem elbowDistance_example_curve (j : ℕ) :
    elbowDistance Real.log Real.sqrt ([1, 1/2, 1/10, 9/100, 2/25, 7/100] : List ℝ) 5 j
      = |(5 : ℝ) * (0 - Real.log (([1, 1/2, 1/10, 9/100, 2/25, 7/100] : List ℝ).getD j 0))
          + (j : ℝ) * Real.log (7 / 100)| / Real.sqrt (25 + Real.log (7 / 100) ^ 2) := by
  simp only [elbowDistance]
  norm_num [max_eq_right]

/-- On the example curve the distance of index 2 strictly dominates every
other index below `max_points = 5`; all comparisons reduce to integer
inequalities under the logarithm. -/
theorem elbowDistance_example_lt : ∀ j, j < 5 → j ≠ 2 →
    elbowDistance Real.log Real.sqrt ([1, 1/2, 1/10, 9/100, 2/25, 7/100] : List ℝ) 5 j
      < elbowDistance Real.log Real.sqrt ([1, 1/2, 1/10, 9/100, 2/25, 7/100] : List ℝ) 5 2 := by
  have l2pos : (0:ℝ) < Real.log 2 := Real.log_pos (by norm_num)
  have l3pos : (0:ℝ) < Real.log 3 := Real.log_pos (by norm_num)
  have l5pos : (0:ℝ) < Real.log 5 := Real.log_pos (by norm_num)
  have l7pos : (0:ℝ) < Real.log 7 := Real.log_pos (by norm_num)
  have logcmp : ∀ a b : ℕ, 0 < a → a < b → Real.log (a:ℝ) < Real.log (b:ℝ) := by
    intro a b ha hab
    exact Real.log_lt_log (by exact_mod_cast ha) (by exact_mod_cast hab)
  have f1 : 2 * Real.log 5 < Real.log 7 + 3 * Real.log 2 := by
    have h := logcmp 25 56 (by norm_num) (by norm_num)
    rw [show ((25:ℕ):ℝ) = 5 ^ 2 by norm_num, show ((56:ℕ):ℝ) = 7 * 2 ^ 3 by norm_num,
        Real.log_mul (by norm_num) (by norm_num)] at h
    simp only [Real.log_pow] at h
    push_cast at h
    linarith
  have f2 : 2 * Real.log 2 < Real.log 7 + 3 * Real.log 5 := by
    have h := logcmp 4 875 (by norm_num) (by norm_num)
    rw [show ((4:ℕ):ℝ) = 2 ^ 2 by norm_num, show ((875:ℕ):ℝ) = 7 * 5 ^ 3 by norm_num,
        Real.log_mul (by norm_num) (by norm_num)] at h
    simp only [Real.log_pow] at h
    push_cast at h
    linarith
  have f3 : Real.log 7 + 3 * Real.log 2 + 3 * Real.log 5 < 10 * Real.log 3 := by
    have h := logcmp 7000 59049 (by norm_num) (by norm_num)
    rw [show ((7000:ℕ):ℝ) = 7 * (2 ^ 3 * 5 ^ 3) by norm_num,
        show ((59049:ℕ):ℝ) = 3 ^ 10 by norm_num,
        Real.log_mul (by norm_num) (by norm_num),
        Real.log_mul (by norm_num) (by norm_num)] at h
    simp only [Real.log_pow] at h
    push_cast at h
    linarith
  have f4 : 10 * Real.log 3 < 3 * Real.log 7 + 4 * Real.log 2 + 4 * Real.log 5 := by
    have h := logcmp 59049 3430000 (by norm_num) (by norm_num)
    rw [show ((59049:ℕ):ℝ) = 3 ^ 10 by norm_num,
        show ((3430000:ℕ):ℝ) = 7 ^ 3 * (2 ^ 4 * 5 ^ 4) by norm_num,
        Real.log_mul (by norm_num) (by norm_num),
        Real.log_mul (by norm_num) (by norm_num)] at h
    simp only [Real.log_pow] at h
    push_cast at h
    linarith
  have f5 : Real.log 5 + 2 * Real.log 7 < 14 * Real.log 2 := by
    have h := logcmp 245 16384 (by norm_num) (by norm_num)
    rw [show ((245:ℕ):ℝ) = 5 * 7 ^ 2 by norm_num,
        show ((16384:ℕ):ℝ) = 2 ^ 14 by norm_num,
        Real.log_mul (by norm_num) (by norm_num)] at h
    simp only [Real.log_pow] at h
    push_cast at h
    linarith
  have f6 : 13 * Real.log 2 < 4 * Real.log 7 + 2 * Real.log 5 := by
    have h := logcmp 8192 60025 (by norm_num) (by norm_num)
    rw [show ((8192:ℕ):ℝ) = 2 ^ 13 by norm_num,
        show ((60025:ℕ):ℝ) = 7 ^ 4 * 5 ^ 2 by norm_num,
        Real.log_mul (by norm_num) (by norm_num)] at h
    simp only [Real.log_pow] at h
    push_cast at h
    linarith
  have h12 : Real.log ((1:ℝ)/2) = -Real.log 2 := by
    rw [one_div, Real.log_inv]
  have h110 : Real.log ((1:ℝ)/10) = -(Real.log 2 + Real.log 5) := by
    rw [one_div, Real.log_inv, show (10:ℝ) = 2 * 5 by norm_num,
        Real.log_mul (by norm_num) (by norm_num)]
  have h9 : Real.log ((9:ℝ)/100) = 2 * Real.log 3 - (2 * Real.log 2 + 2 * Real.log 5) := by
    rw [Real.log_div (by norm_num) (by norm_num), show (9:ℝ) = 3 ^ 2 by norm_num,
        show (100:ℝ) = 2 ^ 2 * 5 ^ 2 by norm_num,
        Real.log_mul (by norm_num) (by norm_num)]
    simp only [Real.log_pow]
    push_cast
    ring
  have h225 : Real.log ((2:ℝ)/25) = Real.log 2 - 2 * Real.log 5 := by
    rw [Real.log_div (by norm_num) (by norm_num), show (25:ℝ) = 5 ^ 2 by norm_num,
        Real.log_pow]
    push_cast
    ring
  have h7100 : Real.log ((7:ℝ)/100) = Real.log 7 - (2 * Real.log 2 + 2 * Real.log 5) := by
    rw [Real.log_div (by norm_num) (by norm_num),
        show (100:ℝ) = 2 ^ 2 * 5 ^ 2 by norm_num,
        Real.log_mul (by norm_num) (by norm_num)]
    simp only [Real.log_pow]
    push_cast
    ring
  have hD : (0:ℝ) < Real.sqrt (25 + Real.log (7/100) ^ 2) := by
    apply Real.sqrt_pos.mpr
    positivity
  intro j hj hne
  rw [elbowDistance_example_curve j, elbowDistance_example_curve 2,
      show (([1, 1/2, 1/10, 9/100, 2/25, 7/100] : List ℝ).getD 2 0) = 1/10 from rfl,
      div_lt_div_iff_of_pos_right hD]
  interval_cases j
  · rw [show (([1, 1/2, 1/10, 9/100, 2/25, 7/100] : List ℝ).getD 0 0) = 1 from rfl,
        Real.log_one, h110, h7100]
    push_cast
    exact abs_lt_abs_of_lt_of_neg_lt (by linarith) (by linarith)
  · rw [show (([1, 1/2, 1/10, 9/100, 2/25, 7/100] : List ℝ).getD 1 0) = 1/2 from rfl,
        h12, h110, h7100]
    push_cast
    exact abs_lt_abs_of_lt_of_neg_lt (by linarith) (by linarith)
  · omega
  · rw [show (([1, 1/2, 1/10, 9/100, 2/25, 7/100] : List ℝ).getD 3 0) = 9/100 from rfl,
        h9, h110, h7100]
    push_cast
    exact abs_lt_abs_of_lt_of_neg_lt (by linarith) (by linarith)
  · rw [show (([1, 1/2, 1/10, 9/100, 2/25, 7/100] : List ℝ).getD 4 0) = 2/25 from rfl,
        h225, h110, h7100]
    push_cast
    exact abs_lt_abs_of_lt_of_neg_lt (by linarith) (by linarith)

/-- C7 (amended): for every curve of length at least 2 and every
`max_points ≥ 1`, `estimate_elbow_position` clamps `max_points` to
`len(curve) - 1` and returns the first index in `[0, max_points)` attaining
the maximum of the perpendicular log-space distances `elbowDistance` (the
curve clipped from below at `1e-30` before the logarithm, NaN/inf distances
impossible in the field model); on the curve
`[1.0, 0.5, 0.1, 0.09, 0.08, 0.07]` with `max_points = 5` it returns index
`2`.  (For `max_points = 0` the source raises instead — see the
counterexample.) -/
theorem C7_estimate_elbow_position_first_argmax :
    (∀ (curve : List ℝ) (max_points : ℕ),
        2 ≤ curve.length → 1 ≤ max_points →
        ∃ kidx,
          estimate_elbow_position Real.log Real.sqrt curve max_points = some kidx ∧
          kidx < min max_points (curve.length - 1) ∧
          (∀ j, j < min max_points (curve.length - 1) →
            elbowDistance Real.log Real.sqrt curve max_points j
              ≤ elbowDistance Real.log Real.sqrt curve max_points kidx) ∧
          (∀ j, j < kidx →
            elbowDistance Real.log Real.sqrt curve max_points j
              < elbowDistance Real.log Real.sqrt curve max_points kidx)) ∧
    estimate_elbow_position Real.log Real.sqrt
        ([1, 1/2, 1/10, 9/100, 2/25, 7/100] : List ℝ) 5 = some 2 := by
  have part1 : ∀ (curve : List ℝ) (max_points : ℕ),
      2 ≤ curve.length → 1 ≤ max_points →
      ∃ kidx,
        estimate_elbow_position Real.log Real.sqrt curve max_points = some kidx ∧
        kidx < min max_points (curve.length - 1) ∧
        (∀ j, j < min max_points (curve.length - 1) →
          elbowDistance Real.log Real.sqrt curve max_points j
            ≤ elbowDistance Real.log Real.sqrt curve max_points kidx) ∧
        (∀ j, j < kidx →
          elbowDistance Real.log Real.sqrt curve max_points j
            < elbowDistance Real.log Real.sqrt curve max_points kidx) := by
    intro curve max_points h2 h1
    have hm1 : 1 ≤ min max_points (curve.length - 1) := by omega
    have hlen : ((List.range (min max_points (curve.length - 1))).map
        (elbowDistance Real.log Real.sqrt curve max_points)).length
          = min max_points (curve.length - 1) := by simp
    obtain ⟨k, hk⟩ : ∃ k, argmaxList ((List.range (min max_points (curve.length - 1))).map
        (elbowDistance Real.log Real.sqrt curve max_points)) = some k := by
      cases hd : (List.range (min max_points (curve.length - 1))).map
          (elbowDistance Real.log Real.sqrt curve max_points) with
      | nil => rw [hd] at hlen; simp at hlen; omega
      | cons x xs => exact ⟨argmaxAux xs 1 0 x, rfl⟩
    have spec := argmaxList_spec _ k 0 hk
    rw [hlen] at spec
    have hget : ∀ j, j < min max_points (curve.length - 1) →
        ((List.range (min max_points (curve.length - 1))).map
          (elbowDistance Real.log Real.sqrt curve max_points)).getD j 0
        = elbowDistance Real.log Real.sqrt curve max_points j := by
      intro j hj
      rw [List.getD_eq_getElem _ _ (by simpa using hj), List.getElem_map,
          List.getElem_range]
    refine ⟨k, hk, spec.1, ?_, ?_⟩
    · intro j hj
      have h := spec.2.1 j hj
      rw [hget j hj, hget k spec.1] at h
      exact h
    · intro j hj
      have h := spec.2.2 j hj
      rw [hget j (hj.trans spec.1), hget k spec.1] at h
      exact h
  refine ⟨part1, ?_⟩
  obtain ⟨k, hk, hklt, hmax, _⟩ := part1 ([1, 1/2, 1/10, 9/100, 2/25, 7/100] : List ℝ) 5
    (by norm_num) (by norm_num)
  have hm : min 5 (([1, 1/2, 1/10, 9/100, 2/25, 7/100] : List ℝ).length - 1) = 5 := by
    norm_num
  have hk2 : k = 2 := by
    by_contra hne
    have ha := hmax 2 (by rw [hm]; norm_num)
    have hb := elbowDistance_example_lt k (by rw [hm] at hklt; exact hklt) hne
    linarith
  rw [hk2] at hk
  exact hk

/-- Witness for C7's amended statement: the quantified characterization
applied at the example curve with `max_points = 5`. -/
theorem C7_witness :
    ∃ kidx,
      estimate_elbow_position Real.log Real.sqrt
          ([1, 1/2, 1/10, 9/100, 2/25, 7/100] : List ℝ) 5 = some kidx ∧
      kidx < min 5 (([1, 1/2, 1/10, 9/100, 2/25, 7/100] : List ℝ).length - 1) ∧
      (∀ j, j < min 5 (([1, 1/2, 1/10, 9/100, 2/25, 7/100] : List ℝ).length - 1) →
        elbowDistance Real.log Real.sqrt ([1, 1/2, 1/10, 9/100, 2/25, 7/100] : List ℝ) 5 j
          ≤ elbowDistance Real.log Real.sqrt ([1, 1/2, 1/10, 9/100, 2/25, 7/100] : List ℝ) 5 kidx) ∧
      (∀ j, j < kidx →
        elbowDistance Real.log Real.sqrt ([1, 1/2, 1/10, 9/100, 2/25, 7/100] : List ℝ) 5 j
          < elbowDistance Real.log Real.sqrt ([1, 1/2, 1/10, 9/100, 2/25, 7/100] : List ℝ) 5 kidx) :=
  C7_estimate_elbow_position_first_argmax.1
    ([1, 1/2, 1/10, 9/100, 2/25, 7/100] : List ℝ) 5 (by norm_num) (by norm_num)

/-- Counterexample to C7 as stated: with `max_points = 0` (an allowed value
of the universally quantified `max_points`) on the length-2 curve
`[1, 1/2]`, the claim asks for "the first index attaining the maximum
distance", but the distance array is empty and `np.argmax` raises
`ValueError`: the model returns no index at all. -/
theorem C7_counterexample :
    estimate_elbow_position Real.log Real.sqrt ([1, 1/2] : List ℝ) 0 = none ∧
    ¬ ∃ kidx, estimate_elbow_position Real.log Real.sqrt ([1, 1/2] : List ℝ) 0 = some kidx := by
  constructor
  · rfl
  · rintro ⟨kidx, hkidx⟩
    rw [show estimate_elbow_position Real.log Real.sqrt ([1, 1/2] : List ℝ) 0 = none
        from rfl] at hkidx
    cases hkidx

end ClaimC7
